import Mathlib

/-!
# Software mixer of `platform/win32/win32audio.cpp`

A shallow embedding of the voice pool, the control surface (`I_GetSoundHandle`,
`I_SetSoundData`, `I_SetSoundInformation`, `I_SetAngle`, `I_SetVolume`, `I_PlaySound`,
`I_StopSound`, `I_CheckSoundPlaying`, `I_CheckSoundDone`, `I_PlayHQSong`, `I_StopHQSong`)
and of `mix_fragment`.

Conventions of the embedding.

* `int` values are `Int`, `uint32_t` values are `Nat`; the conversions the C++ code performs
  (`int` to `uint64_t`, `uint64_t` to `uint32_t`, `unsigned` back to `int`) are written out
  with explicit remainders modulo `2^64` and `2^32`.
* `float` values are elements of an arbitrary linearly ordered field `α`, so `float`
  arithmetic is read as exact arithmetic (rounding is not modelled).  Taking `α := ℚ` makes
  every definition evaluable, taking `α := ℝ` allows `cos` and `sin` to be the real ones;
  the two library functions are passed as the parameters `cosf` and `sinf`.
* `sources` is the list of the `_MAX_VOICES` slots in ascending handle order, a pointer to
  sample data is the list of bytes it points to, and the fragment buffer `next_fragment`
  is a list of stereo frames `(left, right)`.
* `_MAX_VOICES` and `_ERR_NO_SLOTS` come from a header that is not part of the sources
  at hand; they are the parameters `MAX_VOICES` and `ERR_NO_SLOTS`.
* The mutex `mixer_mutex` serialises every function below; each function is therefore a
  state transformer on `Mixer`.
-/

set_option autoImplicit false

namespace Win32Audio

/-! ## Data model -/

/-- One slot of `sources[_MAX_VOICES]` (`struct SoundSource`), with its default member
initialisers. -/
structure SoundSource (α : Type) [LinearOrderedField α] where
  playing : Bool := false
  pos : Int := 0
  frac : Nat := 0
  data : List Nat := []
  length : Int := 0
  sampleRate : Int := 0
  angle_x : α := 0
  angle_y : α := 0
  volume : α := 0
  loop : Bool := false

/-- The single music voice (`struct MusicSource`). -/
structure MusicSource (α : Type) [LinearOrderedField α] where
  playing : Bool := false
  pos : Int := 0
  frac : Nat := 0
  sample_rate : Int := 0
  song_data : List α := []
  loop : Bool := false

/-- The globals of the anonymous namespace that the mixer reads or writes. -/
structure Mixer (α : Type) [LinearOrderedField α] where
  fragment_size : Nat := 0
  next_fragment : List (α × α) := []
  mixing_frequency : Int := 48000
  sources : List (SoundSource α) := []
  music : MusicSource α := {}

section Defs

variable {α : Type} [LinearOrderedField α]

/-- The state at program start: every slot and the music voice default-initialised. -/
def Mixer.initial (MAX_VOICES : Nat) : Mixer α :=
  { sources := List.replicate MAX_VOICES {} }

/-! ## Machine integer conversions -/

/-- Conversion of an `int` to `uint64_t`. -/
def toUInt64 (x : Int) : Nat := (x % 18446744073709551616).toNat

/-- Conversion of an `int` to `unsigned int` (32 bits). -/
def toUInt32 (x : Int) : Nat := (x % 4294967296).toNat

/-- Conversion of an `unsigned int` value back to `int` (two's complement). -/
def toInt32 (n : Nat) : Int :=
  if n % 4294967296 < 2147483648 then ((n % 4294967296 : Nat) : Int)
  else ((n % 4294967296 : Nat) : Int) - 4294967296

/-- The `%` of C++ on `int` operands (remainder of the truncated division). -/
def cRem (a b : Int) : Int := Int.tmod a b

/-! ## Voice pool and control surface -/

/-- Assignment to members of `sources[handle]`. -/
def updateSlot (f : SoundSource α → SoundSource α) :
    List (SoundSource α) → Nat → List (SoundSource α)
  | [], _ => []
  | src :: rest, 0 => f src :: rest
  | src :: rest, handle + 1 => src :: updateSlot f rest handle

/-- Read of `sources[i]`. -/
def slot (sources : List (SoundSource α)) (i : Nat) : SoundSource α :=
  sources.getD i {}

/-- The loop `for (int i = 0; i < _MAX_VOICES; i++) if (!sources[i].playing) return i;`
followed by `return _ERR_NO_SLOTS;`, started at index `i` with `remaining` iterations
left. -/
def I_GetSoundHandle.scan (ERR_NO_SLOTS : Int) (sources : List (SoundSource α)) :
    (remaining : Nat) → (i : Nat) → Int
  | 0, _ => ERR_NO_SLOTS
  | remaining + 1, i =>
    if !(slot sources i).playing then (i : Int)
    else I_GetSoundHandle.scan ERR_NO_SLOTS sources remaining (i + 1)

/-- `int I_GetSoundHandle()`: the returned value and the state after the call. -/
def I_GetSoundHandle (MAX_VOICES : Nat) (ERR_NO_SLOTS : Int) (s : Mixer α) : Int × Mixer α :=
  (I_GetSoundHandle.scan ERR_NO_SLOTS s.sources MAX_VOICES 0, s)

/-- `void I_SetSoundData(int handle, unsigned char* data, int length, int sampleRate)`. -/
def I_SetSoundData (MAX_VOICES : Nat) (s : Mixer α) (handle : Int) (data : List Nat)
    (length sampleRate : Int) : Mixer α :=
  if handle < 0 ∨ handle ≥ MAX_VOICES then s
  else
    { s with sources := (updateSlot (fun src =>
        { src with data := data, length := length, sampleRate := sampleRate,
                   pos := 0, frac := 0, playing := false, loop := false })
        s.sources handle.toNat) }

/-- `void I_SetSoundInformation(int handle, int volume, int angle)`. -/
def I_SetSoundInformation (MAX_VOICES : Nat) (cosf sinf : α → α) (s : Mixer α)
    (handle volume angle : Int) : Mixer α :=
  if handle < 0 ∨ handle ≥ MAX_VOICES then s
  else
    let flang : α := ((angle : α) / 65536) * (3.1415927 * 2)
    let x : α := cosf flang * 0.05
    let y : α := sinf flang * 0.05
    { s with sources := (updateSlot (fun src =>
        { src with angle_x := x, angle_y := y, volume := (volume : α) / 65536 })
        s.sources handle.toNat) }

/-- `void I_SetAngle(int handle, int angle)`. -/
def I_SetAngle (MAX_VOICES : Nat) (cosf sinf : α → α) (s : Mixer α)
    (handle angle : Int) : Mixer α :=
  if handle < 0 ∨ handle ≥ MAX_VOICES then s
  else
    let flang : α := ((angle : α) / 65536) * (3.1415927 * 2)
    let x : α := cosf flang * 0.05
    let y : α := sinf flang * 0.05
    { s with sources := (updateSlot (fun src => { src with angle_x := x, angle_y := y })
        s.sources handle.toNat) }

/-- `void I_SetVolume(int handle, int volume)`. -/
def I_SetVolume (MAX_VOICES : Nat) (s : Mixer α) (handle volume : Int) : Mixer α :=
  if handle < 0 ∨ handle ≥ MAX_VOICES then s
  else
    { s with sources := (updateSlot (fun src => { src with volume := (volume : α) / 65536 })
        s.sources handle.toNat) }

/-- `void I_PlaySound(int handle, int loop)`; the `int` flag is stored in a `bool`. -/
def I_PlaySound (MAX_VOICES : Nat) (s : Mixer α) (handle loop : Int) : Mixer α :=
  if handle < 0 ∨ handle ≥ MAX_VOICES then s
  else
    { s with sources := (updateSlot (fun src =>
        { src with pos := 0, frac := 0, playing := true, loop := decide (loop ≠ 0) })
        s.sources handle.toNat) }

/-- `void I_StopSound(int handle)`. -/
def I_StopSound (MAX_VOICES : Nat) (s : Mixer α) (handle : Int) : Mixer α :=
  if handle < 0 ∨ handle ≥ MAX_VOICES then s
  else
    { s with sources := (updateSlot (fun src => { src with playing := false })
        s.sources handle.toNat) }

/-- `int I_CheckSoundPlaying(int handle)`; the `bool` is returned as `0` or `1`. -/
def I_CheckSoundPlaying (MAX_VOICES : Nat) (s : Mixer α) (handle : Int) : Int :=
  if handle < 0 ∨ handle ≥ MAX_VOICES then 0
  else if (slot s.sources handle.toNat).playing then 1 else 0

/-- `int I_CheckSoundDone(int handle)`: `!I_CheckSoundPlaying(handle)`. -/
def I_CheckSoundDone (MAX_VOICES : Nat) (s : Mixer α) (handle : Int) : Int :=
  if I_CheckSoundPlaying MAX_VOICES s handle = 0 then 1 else 0

/-- `void I_PlayHQSong(int sample_rate, std::vector<float>&& song_data, bool loop)`. -/
def I_PlayHQSong (s : Mixer α) (sample_rate : Int) (song_data : List α) (loop : Bool) :
    Mixer α :=
  { s with music :=
      { sample_rate := sample_rate, song_data := song_data, loop := loop,
        pos := 0, frac := 0, playing := true } }

/-- `void I_StopHQSong()`. -/
def I_StopHQSong (s : Mixer α) : Mixer α :=
  { s with music :=
      { sample_rate := 0, song_data := [], loop := false,
        pos := 0, frac := 0, playing := false } }

/-! ## `mix_fragment` -/

/-- The playback step of line 78,
`static_cast<uint32_t>(src.sampleRate * static_cast<uint64_t>(1 << 16) / mixing_frequency)`:
both `int` operands are converted to `uint64_t`, the product wraps modulo `2^64`, and the
quotient is truncated to 32 bits.  (A zero `mixing_frequency` is undefined behaviour in
C++; the model then yields `0`.) -/
def playbackSpeed (sampleRate mixing_frequency : Int) : Nat :=
  (toUInt64 sampleRate * 65536 % 18446744073709551616 / toUInt64 mixing_frequency)
    % 4294967296

/-- Read of `data[pos]` from a byte buffer.  An index outside the buffer is undefined
behaviour in C++; the model reads `0` there, and every index read is recorded in the
`reads` trace of the loop, so that statements about bounds do not rest on this choice. -/
def readByte (data : List Nat) (pos : Int) : Nat :=
  if 0 ≤ pos then data.getD pos.toNat 0 else 0

/-- Read of `data[i]` from the music buffer (`0` outside the buffer, see `readByte`). -/
def readFloat (data : List α) (i : Int) : α :=
  if 0 ≤ i then data.getD i.toNat 0 else 0

/-- Lines 87-89: `(static_cast<int>(data[pos]) - 127) * (1.0f/127.0f)` clamped to
`[-1, 1]` by `std::max(sample, -1.0f)` and `std::min(sample, 1.0f)`. -/
def decodeSample (b : Nat) : α :=
  min (max ((((b : Int) - 127 : Int) : α) * (1 / 127)) (-1)) 1

/-- Lines 95-97: `frac += speed; pos += frac >> 16; frac &= 0xffff;`.  `frac` is a
`uint32_t`, so the first sum wraps modulo `2^32`; `pos` is an `int` and `frac >> 16` is
unsigned, so the second sum is computed in `unsigned int` and converted back to `int`. -/
def advance (speed : Nat) (pos : Int) (frac : Nat) : Int × Nat :=
  let frac1 := (frac + speed) % 4294967296
  (toInt32 (toUInt32 pos + frac1 / 65536), frac1 % 65536)

/-- What one inner `for (int i = 0; i < count; i++)` loop leaves behind: the frames of the
fragment buffer, the local `pos` and `frac`, the `playing` flag of the voice, and (ghost
state) the indices at which the source buffer was read, in order. -/
structure LoopResult (α : Type) [LinearOrderedField α] where
  output : List (α × α)
  pos : Int
  frac : Nat
  playing : Bool
  reads : List Int

/-- The inner loop of a sound voice (lines 85-109), run over the frames of the fragment
buffer from the cursor `(pos, frac)`.  The loop is entered for a playing voice only, so a
run that reaches the end of the fragment leaves `playing` true.  At the end of the source
`pos % length` is computed before `loop` is tested (for `length = 0` that is a division
by zero, undefined in C++, where the model keeps `pos`); a voice that does not loop then
overwrites the cursor with `(0, 0)` and leaves the loop by `break`, so the remaining
frames of the buffer are not touched. -/
def mix_fragment.soundLoop (speed : Nat) (length : Int) (data : List Nat)
    (volume_left volume_right : α) (loop : Bool) :
    List (α × α) → Int → Nat → LoopResult α
  | [], pos, frac => { output := [], pos := pos, frac := frac, playing := true, reads := [] }
  | (left, right) :: rest, pos, frac =>
    let sample : α := decodeSample (readByte data pos)
    let frame : α × α := (left + sample * volume_left, right + sample * volume_right)
    let next := advance speed pos frac
    if next.1 ≥ length then
      let wrapped := cRem next.1 length
      if !loop then
        { output := frame :: rest, pos := 0, frac := 0, playing := false, reads := [pos] }
      else
        let r := mix_fragment.soundLoop speed length data volume_left volume_right loop rest
          wrapped next.2
        { r with output := frame :: r.output, reads := pos :: r.reads }
    else
      let r := mix_fragment.soundLoop speed length data volume_left volume_right loop rest
        next.1 next.2
      { r with output := frame :: r.output, reads := pos :: r.reads }

/-- Line 83: `float volume_left = src.volume * (1.0f + src.angle_x) * 0.5f;`. -/
def mix_fragment.volume_left (src : SoundSource α) : α :=
  src.volume * (1 + src.angle_x) * 0.5

/-- Line 84: `float volume_right = src.volume * (1.0f - src.angle_x) * 0.5f;`. -/
def mix_fragment.volume_right (src : SoundSource α) : α :=
  src.volume * (1 - src.angle_x) * 0.5

/-- The body of the `handle` loop for one slot (lines 74-112): the loop run of a playing
slot, from the locals of lines 78-84. -/
def mix_fragment.soundRun (mixing_frequency : Int) (src : SoundSource α)
    (output : List (α × α)) : LoopResult α :=
  mix_fragment.soundLoop (playbackSpeed src.sampleRate mixing_frequency) src.length src.data
    (mix_fragment.volume_left src) (mix_fragment.volume_right src)
    src.loop output src.pos src.frac

/-- The body of the `handle` loop for one slot (lines 74-112): the slot and the fragment
buffer afterwards. -/
def mix_fragment.sound (mixing_frequency : Int) (src : SoundSource α)
    (output : List (α × α)) : SoundSource α × List (α × α) :=
  if src.playing then
    let r := mix_fragment.soundRun mixing_frequency src output
    ({ src with pos := r.pos, frac := r.frac, playing := r.playing }, r.output)
  else (src, output)

/-- The indices at which the pass over one slot reads `src.data`. -/
def mix_fragment.soundReads (mixing_frequency : Int) (src : SoundSource α)
    (output : List (α × α)) : List Int :=
  if src.playing then (mix_fragment.soundRun mixing_frequency src output).reads else []

/-- The loop `for (int handle = 0; handle < _MAX_VOICES; handle++)` (lines 72-113) over
the slots in ascending handle order. -/
def mix_fragment.sounds (mixing_frequency : Int) :
    List (SoundSource α) → List (α × α) → List (SoundSource α) × List (α × α)
  | [], output => ([], output)
  | src :: rest, output =>
    let r := mix_fragment.sound mixing_frequency src output
    let rs := mix_fragment.sounds mixing_frequency rest r.2
    (r.1 :: rs.1, rs.2)

/-- The inner loop of the music voice (lines 123-147).  The local `sample` of lines
125-127 is computed from `data[pos]` and never used; only its read is recorded.
`pos << 1` is the 32-bit shift of an `int`. -/
def mix_fragment.musicLoop (speed : Nat) (length : Int) (data : List α) (loop : Bool) :
    List (α × α) → Int → Nat → LoopResult α
  | [], pos, frac => { output := [], pos := pos, frac := frac, playing := true, reads := [] }
  | (left, right) :: rest, pos, frac =>
    let pos2 : Int := toInt32 (toUInt32 pos * 2)
    let frame : α × α := (left + readFloat data pos2, right + readFloat data (pos2 + 1))
    let next := advance speed pos frac
    if next.1 ≥ length then
      let wrapped := cRem next.1 length
      if !loop then
        { output := frame :: rest, pos := 0, frac := 0, playing := false,
          reads := [pos, pos2, pos2 + 1] }
      else
        let r := mix_fragment.musicLoop speed length data loop rest wrapped next.2
        { r with output := frame :: r.output, reads := pos :: pos2 :: (pos2 + 1) :: r.reads }
    else
      let r := mix_fragment.musicLoop speed length data loop rest next.1 next.2
      { r with output := frame :: r.output, reads := pos :: pos2 :: (pos2 + 1) :: r.reads }

/-- The loop run of the music voice, with `length = music.song_data.size() / 2`
(lines 117-147). -/
def mix_fragment.musicRun (mixing_frequency : Int) (music : MusicSource α)
    (output : List (α × α)) : LoopResult α :=
  mix_fragment.musicLoop (playbackSpeed music.sample_rate mixing_frequency)
    (toInt32 (music.song_data.length / 2)) music.song_data music.loop output
    music.pos music.frac

/-- Lines 115-150: the music voice and the fragment buffer after the music pass. -/
def mix_fragment.music (mixing_frequency : Int) (music : MusicSource α)
    (output : List (α × α)) : MusicSource α × List (α × α) :=
  if music.playing then
    let r := mix_fragment.musicRun mixing_frequency music output
    ({ music with pos := r.pos, frac := r.frac, playing := r.playing }, r.output)
  else (music, output)

/-- `void mix_fragment()`.  The buffer `next_fragment` holds `fragment_size` frames
(`new float[2 * fragment_size]`, with `fragment_size < 2^31` so that `count` equals it);
the first loop overwrites every one of them with `(0, 0)`, whatever it held before. -/
def mix_fragment (s : Mixer α) : Mixer α :=
  let zeroed : List (α × α) := List.replicate s.fragment_size (0, 0)
  let voices := mix_fragment.sounds s.mixing_frequency s.sources zeroed
  let song := mix_fragment.music s.mixing_frequency s.music voices.2
  { s with next_fragment := song.2, sources := voices.1, music := song.1 }

end Defs


/-! ## A test driver for the voice pool -/

section Driver

variable {α : Type} [LinearOrderedField α]

/-- The caller's sequence `h = I_GetSoundHandle(); I_PlaySound(h, loop);` repeated
`rounds` times with nothing in between: the handles returned, in order, and the final
state. -/
def acquireAndPlay (MAX_VOICES : Nat) (ERR_NO_SLOTS : Int) (loop : Int) :
    (rounds : Nat) → Mixer α → List Int × Mixer α
  | 0, s => ([], s)
  | rounds + 1, s =>
    let r := I_GetSoundHandle MAX_VOICES ERR_NO_SLOTS s
    let rest := acquireAndPlay MAX_VOICES ERR_NO_SLOTS loop rounds
      (I_PlaySound MAX_VOICES r.2 r.1 loop)
    (r.1 :: rest.1, rest.2)

end Driver

/-! ## Notions used to state the claims about `mix_fragment` -/

section Derived

variable {α : Type} [LinearOrderedField α]

/-- The cursor after `k` executions of lines 95-97 from `(pos, frac)`, on a stretch of
frames where the test `pos >= length` of line 98 stays false. -/
def cursorAfter (speed : Nat) : Nat → Int → Nat → Int × Nat
  | 0, pos, frac => (pos, frac)
  | k + 1, pos, frac =>
    cursorAfter speed k (advance speed pos frac).1 (advance speed pos frac).2

/-- Frame `j` of a fragment buffer: `(output[2*j], output[2*j+1])`, and `(0, 0)` past its
end. -/
def frameAt (output : List (α × α)) (j : Nat) : α × α :=
  output.getD j (0, 0)

/-- A slot with `playing` cleared and nothing else changed. -/
def muted (src : SoundSource α) : SoundSource α :=
  { src with playing := false }

/-- The pool in which only slot `handle` keeps its `playing` flag. -/
def muteOthers : List (SoundSource α) → Nat → List (SoundSource α)
  | [], _ => []
  | src :: rest, 0 => src :: rest.map muted
  | src :: rest, handle + 1 => muted src :: muteOthers rest handle

/-- The state from which sound voice `handle` is rendered alone: `playing` is cleared on
every other slot and on the music voice, nothing else is changed. -/
def soloSound (s : Mixer α) (handle : Nat) : Mixer α :=
  { s with sources := muteOthers s.sources handle,
           music := { s.music with playing := false } }

/-- The state from which the music voice is rendered alone: `playing` is cleared on every
sound slot, nothing else is changed. -/
def soloMusic (s : Mixer α) : Mixer α :=
  { s with sources := s.sources.map muted }

/-- The handles of the slots that are playing, in ascending order. -/
def playingHandles (s : Mixer α) : List Nat :=
  (List.range s.sources.length).filter (fun h => (slot s.sources h).playing)

/-- Frame `j` of the sum of the fragments obtained by rendering, from the state `s`, each
playing sound voice alone and the music voice (when playing) alone. -/
def soloSum (s : Mixer α) (j : Nat) : α × α :=
  ((playingHandles s).map
      (fun h => frameAt (mix_fragment (soloSound s h)).next_fragment j)).sum
    + (if s.music.playing then frameAt (mix_fragment (soloMusic s)).next_fragment j
       else (0, 0))

end Derived

/-! ## Notions used to state the claims about one voice -/

section DerivedVoice

variable {α : Type} [LinearOrderedField α]

/-- What the frame rendered with the cursor at `pos` adds to the buffer (lines 87-92):
`sample * volume_left` on the left and `sample * volume_right` on the right. -/
def mix_fragment.soundFrame (src : SoundSource α) (pos : Int) : α × α :=
  (decodeSample (readByte src.data pos) * mix_fragment.volume_left src,
   decodeSample (readByte src.data pos) * mix_fragment.volume_right src)

/-- The state `s` with `playing` cleared on slot `handle` and nothing else changed. -/
def withoutSound (s : Mixer α) (handle : Nat) : Mixer α :=
  { s with sources := updateSlot muted s.sources handle }

/-- The cursor of a slot after `k` executions of lines 95-97 at the playback step of the
slot, on a stretch of frames where the test of line 98 stays false. -/
def slotCursor (mixing_frequency : Int) (src : SoundSource α) (k : Nat) : Int × Nat :=
  cursorAfter (playbackSpeed src.sampleRate mixing_frequency) k src.pos src.frac

end DerivedVoice

/-! ## Concrete states used as examples -/

section Examples

/-- Two voices playing the one-byte buffer `[254]` at the mixing frequency, each with
`volume = 1` and the pan `x = 0.05` that `I_SetSoundInformation(h, 65536, 0)` stores. -/
def twoLoudVoices : Mixer ℚ :=
  { fragment_size := 1,
    sources :=
      [{ playing := true, data := [254], length := 1, sampleRate := 48000,
         angle_x := 1 / 20, volume := 1 },
       { playing := true, data := [254], length := 1, sampleRate := 48000,
         angle_x := 1 / 20, volume := 1 }] }

/-- The scenario of the specification, built through the control surface on a pool of
one voice: `I_SetSoundData(0, [127,127,254,0], 4, 48000)`,
`I_SetSoundInformation(0, 65536, 0)`, `I_PlaySound(0, 0)`, with a fragment of five frames
and the default mixing frequency of `48000`. -/
def specScenario {α : Type} [LinearOrderedField α] (cosf sinf : α → α) : Mixer α :=
  I_PlaySound 1
    (I_SetSoundInformation 1 cosf sinf
      (I_SetSoundData 1 { (Mixer.initial 1 : Mixer α) with fragment_size := 5 }
        0 [127, 127, 254, 0] 4 48000)
      0 65536 0)
    0 0

end Examples

/-! ## Sequences of calls on the mixer -/

section Calls

variable {α : Type} [LinearOrderedField α]

end Calls

/-! ## Rendering fragments of a given size -/

section Render

variable {α : Type} [LinearOrderedField α]

/-- One call of `mix_fragment` on a device whose buffer holds `frames` frames
(`fragment_size = frames`). -/
def renderFrames (frames : Nat) (s : Mixer α) : Mixer α :=
  mix_fragment { s with fragment_size := frames }

end Render

/-! ## The step rule shared by the sound voices and the music voice -/

section StepRule

/-- What the cursor does over `count` frames: the positions at which the successive frames
are rendered, and the cursor and `playing` flag afterwards. -/
structure CursorRun where
  positions : List Int
  pos : Int
  frac : Nat
  playing : Bool

/-- The cursor part of both inner loops (lines 95-108 and 133-146) on its own: advance,
then at `pos >= length` wrap by `pos % length`, or, for a voice that does not loop, reset
the cursor to `(0, 0)`, clear `playing` and leave the loop. -/
def stepRule (speed : Nat) (length : Int) (loop : Bool) : Nat → Int → Nat → CursorRun
  | 0, pos, frac => { positions := [], pos := pos, frac := frac, playing := true }
  | count + 1, pos, frac =>
    let next := advance speed pos frac
    if next.1 ≥ length then
      let wrapped := cRem next.1 length
      if !loop then
        { positions := [pos], pos := 0, frac := 0, playing := false }
      else
        let r := stepRule speed length loop count wrapped next.2
        { r with positions := pos :: r.positions }
    else
      let r := stepRule speed length loop count next.1 next.2
      { r with positions := pos :: r.positions }

variable {α : Type} [LinearOrderedField α]

set_option linter.unusedVariables false in
/-- The inner loop of the music voice with the local `sample` of lines 125-127 written
out: `(static_cast<int>(data[pos]) - 127) * (1.0f / 127.0f)` clamped to `[-1, 1]`, where
`toInt` stands for the conversion of a `float` to `int`.  The local is not used by any
later statement of the loop. -/
def mix_fragment.musicLoopWithSample (toInt : α → Int) (speed : Nat) (length : Int)
    (data : List α) (loop : Bool) : List (α × α) → Int → Nat → LoopResult α
  | [], pos, frac => { output := [], pos := pos, frac := frac, playing := true, reads := [] }
  | (left, right) :: rest, pos, frac =>
    let sample : α :=
      min (max (((toInt (readFloat data pos) - 127 : Int) : α) * (1 / 127)) (-1)) 1
    let pos2 : Int := toInt32 (toUInt32 pos * 2)
    let frame : α × α := (left + readFloat data pos2, right + readFloat data (pos2 + 1))
    let next := advance speed pos frac
    if next.1 ≥ length then
      let wrapped := cRem next.1 length
      if !loop then
        { output := frame :: rest, pos := 0, frac := 0, playing := false,
          reads := [pos, pos2, pos2 + 1] }
      else
        let r := mix_fragment.musicLoopWithSample toInt speed length data loop rest wrapped
          next.2
        { r with output := frame :: r.output, reads := pos :: pos2 :: (pos2 + 1) :: r.reads }
    else
      let r := mix_fragment.musicLoopWithSample toInt speed length data loop rest next.1
        next.2
      { r with output := frame :: r.output, reads := pos :: pos2 :: (pos2 + 1) :: r.reads }

/-- The indices at which the music pass reads `music.song_data`: for each frame `pos`
(the unused `sample`), `pos << 1` and `(pos << 1) + 1`. -/
def mix_fragment.musicReads (mixing_frequency : Int) (music : MusicSource α)
    (output : List (α × α)) : List Int :=
  if music.playing then (mix_fragment.musicRun mixing_frequency music output).reads else []

/-- The cursor run of the music voice over one fragment: the step rule at the playback
step of the music, with `length = song_data.size() / 2`. -/
def musicCursorRun (s : Mixer α) : CursorRun :=
  stepRule (playbackSpeed s.music.sample_rate s.mixing_frequency)
    (toInt32 (s.music.song_data.length / 2)) s.music.loop s.fragment_size s.music.pos
    s.music.frac

/-- The state `s` with `playing` cleared on the music voice and nothing else changed. -/
def withoutMusic (s : Mixer α) : Mixer α :=
  { s with music := { s.music with playing := false } }

/-- A two-frame song played once at the mixing frequency into a fragment of three
frames, with no sound voice. -/
def shortSong : Mixer ℚ :=
  { fragment_size := 3,
    music := { playing := true, sample_rate := 48000,
               song_data := [1 / 2, -1 / 2, 1 / 4, 1 / 8] } }

end StepRule

/-! ## Lemmas on the voice pool -/

section PoolLemmas

variable {α : Type} [LinearOrderedField α]

theorem updateSlot_length (f : SoundSource α → SoundSource α) (l : List (SoundSource α))
    (h : Nat) : (updateSlot f l h).length = l.length := by
  induction l generalizing h with
  | nil => rfl
  | cons a t ih => cases h <;> simp [updateSlot, ih]

theorem slot_nil (i : Nat) : slot ([] : List (SoundSource α)) i = {} := by
  simp [slot]

theorem slot_cons_zero (a : SoundSource α) (t : List (SoundSource α)) :
    slot (a :: t) 0 = a := by
  simp [slot]

theorem slot_cons_succ (a : SoundSource α) (t : List (SoundSource α)) (i : Nat) :
    slot (a :: t) (i + 1) = slot t i := by
  simp [slot]

theorem slot_updateSlot_same (f : SoundSource α → SoundSource α) (l : List (SoundSource α))
    (h : Nat) (hh : h < l.length) : slot (updateSlot f l h) h = f (slot l h) := by
  induction l generalizing h with
  | nil => simp at hh
  | cons a t ih =>
    cases h with
    | zero => simp [updateSlot, slot_cons_zero]
    | succ n =>
      have hn : n < t.length := by simpa using hh
      simp [updateSlot, slot_cons_succ, ih n hn]

theorem slot_updateSlot_ne (f : SoundSource α → SoundSource α) (l : List (SoundSource α))
    (h i : Nat) (hi : i ≠ h) : slot (updateSlot f l h) i = slot l i := by
  induction l generalizing h i with
  | nil => simp [updateSlot]
  | cons a t ih =>
    cases h with
    | zero =>
      cases i with
      | zero => exact absurd rfl hi
      | succ m => simp [updateSlot, slot_cons_succ]
    | succ n =>
      cases i with
      | zero => simp [updateSlot, slot_cons_zero]
      | succ m =>
        have hm : m ≠ n := fun e => hi (by rw [e])
        simp [updateSlot, slot_cons_succ, ih n m hm]

theorem updateSlot_of_fixed (f : SoundSource α → SoundSource α) (l : List (SoundSource α))
    (h : Nat) (hf : f (slot l h) = slot l h) : updateSlot f l h = l := by
  induction l generalizing h with
  | nil => rfl
  | cons a t ih =>
    cases h with
    | zero => simpa [updateSlot, slot_cons_zero] using hf
    | succ n =>
      have hn : f (slot t n) = slot t n := by simpa [slot_cons_succ] using hf
      simp [updateSlot, ih n hn]

theorem updateSlot_twice (f g : SoundSource α → SoundSource α) (l : List (SoundSource α))
    (h : Nat) : updateSlot f (updateSlot g l h) h = updateSlot (fun x => f (g x)) l h := by
  induction l generalizing h with
  | nil => rfl
  | cons a t ih => cases h <;> simp [updateSlot, ih]

theorem scan_first_free (ERR_NO_SLOTS : Int) (sources : List (SoundSource α)) :
    ∀ (remaining i k : Nat), i ≤ k → k < i + remaining →
      (∀ j, i ≤ j → j < k → (slot sources j).playing = true) →
      (slot sources k).playing = false →
      I_GetSoundHandle.scan ERR_NO_SLOTS sources remaining i = (k : Int) := by
  intro remaining
  induction remaining with
  | zero => intro i k h1 h2; omega
  | succ n ih =>
    intro i k h1 h2 hbusy hfree
    rcases Nat.eq_or_lt_of_le h1 with hik | hik
    · subst hik
      simp [I_GetSoundHandle.scan, hfree]
    · have hi : (slot sources i).playing = true := hbusy i (Nat.le_refl i) hik
      simp only [I_GetSoundHandle.scan, hi, Bool.not_true, Bool.false_eq_true, if_false]
      exact ih (i + 1) k hik (by omega) (fun j hj hjk => hbusy j (by omega) hjk) hfree

theorem scan_all_busy (ERR_NO_SLOTS : Int) (sources : List (SoundSource α)) :
    ∀ (remaining i : Nat),
      (∀ j, i ≤ j → j < i + remaining → (slot sources j).playing = true) →
      I_GetSoundHandle.scan ERR_NO_SLOTS sources remaining i = ERR_NO_SLOTS := by
  intro remaining
  induction remaining with
  | zero => intro i _; rfl
  | succ n ih =>
    intro i hbusy
    have hi : (slot sources i).playing = true := hbusy i (Nat.le_refl i) (by omega)
    simp only [I_GetSoundHandle.scan, hi, Bool.not_true, Bool.false_eq_true, if_false]
    exact ih (i + 1) (fun j hj hjk => hbusy j (by omega) (by omega))

/-- A pool that is not entirely busy has a first free slot. -/
theorem exists_first_free (sources : List (SoundSource α)) (n : Nat)
    (h : ¬ ∀ i, i < n → (slot sources i).playing = true) :
    ∃ k, k < n ∧ (slot sources k).playing = false ∧
      ∀ j, j < k → (slot sources j).playing = true := by
  induction n with
  | zero => exact absurd (fun i hi => absurd hi (Nat.not_lt_zero i)) h
  | succ m ih =>
    by_cases hm : ∀ i, i < m → (slot sources i).playing = true
    · refine ⟨m, Nat.lt_succ_self m, ?_, hm⟩
      cases hp : (slot sources m).playing with
      | false => rfl
      | true =>
        exfalso
        apply h
        intro i hi
        rcases Nat.eq_or_lt_of_le (Nat.le_of_lt_succ hi) with e | e
        · rw [e]; exact hp
        · exact hm i e
    · obtain ⟨k, hk, hfree, hbusy⟩ := ih hm
      exact ⟨k, Nat.lt_succ_of_lt hk, hfree, hbusy⟩

end PoolLemmas

/-! ## Lemmas on the control surface -/

section ControlLemmas

variable {α : Type} [LinearOrderedField α]

theorem handle_in_range (MAX_VOICES : Nat) (handle : Int) (h0 : 0 ≤ handle)
    (h1 : handle < MAX_VOICES) : ¬ (handle < 0 ∨ handle ≥ MAX_VOICES) := by
  intro h
  rcases h with h | h
  · exact absurd h0 (not_le.mpr h)
  · exact absurd h1 (not_lt.mpr h)

theorem handle_toNat_lt (MAX_VOICES : Nat) (handle : Int) (h0 : 0 ≤ handle)
    (h1 : handle < MAX_VOICES) : handle.toNat < MAX_VOICES := by
  omega

theorem I_PlaySound_sources (MAX_VOICES : Nat) (s : Mixer α) (handle loop : Int)
    (h0 : 0 ≤ handle) (h1 : handle < MAX_VOICES) :
    (I_PlaySound MAX_VOICES s handle loop).sources =
      updateSlot (fun src =>
        { src with pos := 0, frac := 0, playing := true, loop := decide (loop ≠ 0) })
        s.sources handle.toNat := by
  simp [I_PlaySound, handle_in_range MAX_VOICES handle h0 h1]

theorem acquireAndPlay_from (MAX_VOICES : Nat) (ERR_NO_SLOTS : Int) (loop : Int) :
    ∀ (n k : Nat) (s : Mixer α), s.sources.length = MAX_VOICES → k + n ≤ MAX_VOICES →
      (∀ i, i < k → (slot s.sources i).playing = true) →
      (∀ i, k ≤ i → i < MAX_VOICES → (slot s.sources i).playing = false) →
      (acquireAndPlay MAX_VOICES ERR_NO_SLOTS loop n s).1
          = (List.range' k n).map (fun i : Nat => (i : Int)) ∧
        ∀ i, i < k + n →
          (slot (acquireAndPlay MAX_VOICES ERR_NO_SLOTS loop n s).2.sources i).playing
            = true := by
  intro n
  induction n with
  | zero =>
    intro k s _ _ hbusy _
    exact ⟨rfl, fun i hi => hbusy i (by simpa using hi)⟩
  | succ n ih =>
    intro k s hlen hk hbusy hfree
    have hkM : k < MAX_VOICES := by omega
    have hget : (I_GetSoundHandle MAX_VOICES ERR_NO_SLOTS s).1 = (k : Int) :=
      scan_first_free ERR_NO_SLOTS s.sources MAX_VOICES 0 k (Nat.zero_le k) (by omega)
        (fun j _ hj => hbusy j hj) (hfree k (Nat.le_refl k) hkM)
    have hstate : (I_GetSoundHandle MAX_VOICES ERR_NO_SLOTS s).2 = s := rfl
    have hsrc := I_PlaySound_sources MAX_VOICES s (k : Int) loop (Int.natCast_nonneg k)
      (by exact_mod_cast hkM)
    rw [Int.toNat_ofNat] at hsrc
    have hlen2 : (I_PlaySound MAX_VOICES s (k : Int) loop).sources.length = MAX_VOICES := by
      rw [hsrc, updateSlot_length, hlen]
    have hbusy2 : ∀ i, i < k + 1 →
        (slot (I_PlaySound MAX_VOICES s (k : Int) loop).sources i).playing = true := by
      intro i hi
      rw [hsrc]
      rcases Nat.eq_or_lt_of_le (Nat.le_of_lt_succ hi) with e | e
      · subst e
        rw [slot_updateSlot_same _ _ _ (by omega)]
      · rw [slot_updateSlot_ne _ _ _ _ (Nat.ne_of_lt e)]
        exact hbusy i e
    have hfree2 : ∀ i, k + 1 ≤ i → i < MAX_VOICES →
        (slot (I_PlaySound MAX_VOICES s (k : Int) loop).sources i).playing = false := by
      intro i hi hiM
      rw [hsrc, slot_updateSlot_ne _ _ _ _ (by omega)]
      exact hfree i (by omega) hiM
    have hrec := ih (k + 1) (I_PlaySound MAX_VOICES s (k : Int) loop) hlen2 (by omega)
      hbusy2 hfree2
    simp only [acquireAndPlay, hget, hstate]
    refine ⟨?_, ?_⟩
    · rw [hrec.1]
      simp [List.range'_succ]
    · intro i hi
      exact hrec.2 i (by omega)

theorem slot_stopped (l : List (SoundSource α)) (n : Nat) :
    (slot (updateSlot (fun src => { src with playing := false }) l n) n).playing
      = false := by
  induction l generalizing n with
  | nil => simp [updateSlot, slot_nil]
  | cons a t ih =>
    cases n with
    | zero => simp [updateSlot, slot_cons_zero]
    | succ m => simpa [updateSlot, slot_cons_succ] using ih m

end ControlLemmas

/-! ## Lemmas on the cursor arithmetic -/

section CursorLemmas

variable {α : Type} [LinearOrderedField α]

theorem toInt32_toUInt32_add (pos : Int) (d : Nat) (h0 : -2147483648 ≤ pos)
    (h1 : pos + d < 2147483648) : toInt32 (toUInt32 pos + d) = pos + d := by
  unfold toInt32 toUInt32
  split <;> omega

theorem advance_frac_lt (speed : Nat) (pos : Int) (frac : Nat) :
    (advance speed pos frac).2 < 65536 := by
  simp only [advance]
  omega

theorem advance_pos (speed : Nat) (pos : Int) (frac : Nat) (h0 : -2147483648 ≤ pos)
    (h1 : pos + 65535 < 2147483648) :
    (advance speed pos frac).1
      = pos + (((frac + speed) % 4294967296 / 65536 : Nat) : Int) ∧
    (frac + speed) % 4294967296 / 65536 ≤ 65535 := by
  have hstep : (frac + speed) % 4294967296 / 65536 ≤ 65535 := by omega
  refine ⟨?_, hstep⟩
  simp only [advance]
  exact toInt32_toUInt32_add pos _ h0 (by omega)

theorem advance_unit (pos : Int) (frac : Nat) (hfrac : frac < 65536)
    (h0 : -2147483648 ≤ pos) (h1 : pos + 1 < 2147483648) :
    advance 65536 pos frac = (pos + 1, frac) := by
  have hq : (frac + 65536) % 4294967296 / 65536 = 1 := by omega
  have hr : (frac + 65536) % 4294967296 % 65536 = frac := by omega
  simp only [advance, hq, hr]
  rw [toInt32_toUInt32_add pos 1 h0 (by omega)]
  rfl

theorem cRem_bounds (a b : Int) (ha : 0 ≤ a) (hb : 0 < b) :
    0 ≤ cRem a b ∧ cRem a b < b ∧ cRem a b = a % b :=
  ⟨Int.tmod_nonneg b ha, Int.tmod_lt_of_pos a hb, Int.tmod_eq_emod ha (le_of_lt hb)⟩

theorem playbackSpeed_nonneg_rate (sampleRate mixing_frequency : Int)
    (hs0 : 0 ≤ sampleRate) (hs1 : sampleRate < 2147483648)
    (hm0 : 0 < mixing_frequency) (hm1 : mixing_frequency < 2147483648) :
    ((playbackSpeed sampleRate mixing_frequency : Nat) : Int)
      = (sampleRate * 65536 / mixing_frequency) % 4294967296 := by
  obtain ⟨r, rfl⟩ := Int.eq_ofNat_of_zero_le hs0
  obtain ⟨m, rfl⟩ := Int.eq_ofNat_of_zero_le (le_of_lt hm0)
  have hr : r < 2147483648 := by exact_mod_cast hs1
  have hm : m < 2147483648 := by exact_mod_cast hm1
  have h1 : toUInt64 (r : Int) = r := by unfold toUInt64; omega
  have h2 : toUInt64 (m : Int) = m := by unfold toUInt64; omega
  have h3 : r * 65536 % 18446744073709551616 = r * 65536 := by omega
  simp only [playbackSpeed, h1, h2, h3]
  push_cast
  rfl

theorem playbackSpeed_same_rate (rate : Int) (h0 : 0 < rate) (h1 : rate < 2147483648) :
    playbackSpeed rate rate = 65536 := by
  obtain ⟨r, rfl⟩ := Int.eq_ofNat_of_zero_le (le_of_lt h0)
  have hr : r < 2147483648 := by exact_mod_cast h1
  have hpos : 0 < r := by exact_mod_cast h0
  have h1 : toUInt64 (r : Int) = r := by unfold toUInt64; omega
  have h3 : r * 65536 % 18446744073709551616 = r * 65536 := by omega
  have h4 : r * 65536 / r = 65536 := by
    rw [Nat.mul_comm]; exact Nat.mul_div_cancel 65536 hpos
  simp only [playbackSpeed, h1, h3, h4]

end CursorLemmas

/-! ## Lemmas on the inner loop of a sound voice -/

section SoundLoopLemmas

variable {α : Type} [LinearOrderedField α]

theorem soundLoop_reads_in_bounds (speed : Nat) (length : Int) (data : List Nat)
    (vl vr : α) (loop : Bool) (hlen : 0 < length) (hmax : length ≤ 2147418113) :
    ∀ (output : List (α × α)) (pos : Int) (frac : Nat), 0 ≤ pos → pos < length →
      (∀ i ∈ (mix_fragment.soundLoop speed length data vl vr loop output pos frac).reads,
        0 ≤ i ∧ i < length) ∧
      ((mix_fragment.soundLoop speed length data vl vr loop output pos frac).playing = true →
        0 ≤ (mix_fragment.soundLoop speed length data vl vr loop output pos frac).pos ∧
        (mix_fragment.soundLoop speed length data vl vr loop output pos frac).pos
          < length) := by
  intro output
  induction output with
  | nil =>
    intro pos frac h0 h1
    simp [mix_fragment.soundLoop, h0, h1]
  | cons hd tl ih =>
    intro pos frac h0 h1
    obtain ⟨l, r⟩ := hd
    have hadv := advance_pos speed pos frac (by omega) (by omega)
    have hnext0 : 0 ≤ (advance speed pos frac).1 := by
      rw [hadv.1]; omega
    simp only [mix_fragment.soundLoop]
    split
    · rename_i hge
      split
      · simp [h0, h1]
      · have hb := cRem_bounds (advance speed pos frac).1 length hnext0 hlen
        have hrec := ih (cRem (advance speed pos frac).1 length) (advance speed pos frac).2
          hb.1 hb.2.1
        refine ⟨?_, hrec.2⟩
        intro i hi
        rcases List.mem_cons.mp hi with e | e
        · rw [e]; exact ⟨h0, h1⟩
        · exact hrec.1 i e
    · rename_i hlt
      have hrec := ih (advance speed pos frac).1 (advance speed pos frac).2 hnext0
        (not_le.mp hlt)
      refine ⟨?_, hrec.2⟩
      intro i hi
      rcases List.mem_cons.mp hi with e | e
      · rw [e]; exact ⟨h0, h1⟩
      · exact hrec.1 i e

theorem soundLoop_unit_reads (length : Int) (data : List Nat) (vl vr : α) (loop : Bool)
    (hmax : length < 2147483648) :
    ∀ (output : List (α × α)) (pos : Int) (frac : Nat), 0 ≤ pos → pos < length →
      frac < 65536 →
      ∀ (j : Nat) (i : Int),
        (mix_fragment.soundLoop 65536 length data vl vr loop output pos frac).reads[j]?
          = some i → i = (pos + j) % length := by
  intro output
  induction output with
  | nil =>
    intro pos frac _ _ _ j i hj
    simp [mix_fragment.soundLoop] at hj
  | cons hd tl ih =>
    intro pos frac h0 h1 hfrac j i hj
    obtain ⟨l, r⟩ := hd
    have hadv := advance_unit pos frac hfrac (by omega) (by omega)
    have hzero : pos % length = pos := Int.emod_eq_of_lt h0 h1
    simp only [mix_fragment.soundLoop, hadv] at hj
    split at hj
    · rename_i hge
      have hb := cRem_bounds (pos + 1) length (by omega) (by omega)
      split at hj
      · cases j with
        | zero =>
          simp only [List.getElem?_cons_zero, Option.some.injEq] at hj
          rw [← hj]; simp [hzero]
        | succ m => simp at hj
      · cases j with
        | zero =>
          simp only [List.getElem?_cons_zero, Option.some.injEq] at hj
          rw [← hj]; simp [hzero]
        | succ m =>
          simp only [List.getElem?_cons_succ] at hj
          have hrec := ih (cRem (pos + 1) length) frac hb.1 hb.2.1 hfrac m i hj
          rw [hrec, hb.2.2, Int.emod_add_emod]
          congr 1
          push_cast
          ring
    · rename_i hlt
      cases j with
      | zero =>
        simp only [List.getElem?_cons_zero, Option.some.injEq] at hj
        rw [← hj]; simp [hzero]
      | succ m =>
        simp only [List.getElem?_cons_succ] at hj
        have hrec := ih (pos + 1) frac (by omega) (not_le.mp hlt) hfrac m i hj
        rw [hrec]
        congr 1
        push_cast
        ring

end SoundLoopLemmas

/-! ## Lemmas on fragment buffers -/

section FrameLemmas

variable {α : Type} [LinearOrderedField α]

theorem frameAt_nil (j : Nat) : frameAt ([] : List (α × α)) j = 0 := by
  simp [frameAt]

theorem frameAt_cons_zero (a : α × α) (l : List (α × α)) : frameAt (a :: l) 0 = a := by
  simp [frameAt]

theorem frameAt_cons_succ (a : α × α) (l : List (α × α)) (j : Nat) :
    frameAt (a :: l) (j + 1) = frameAt l j := by
  simp [frameAt]

theorem frameAt_zeros (n j : Nat) :
    frameAt (List.replicate n ((0 : α), (0 : α))) j = 0 := by
  induction n generalizing j with
  | zero => exact frameAt_nil j
  | succ m ih =>
    cases j with
    | zero => rw [List.replicate_succ, frameAt_cons_zero]; rfl
    | succ i => rw [List.replicate_succ, frameAt_cons_succ]; exact ih i

theorem frameAt_of_length_le (l : List (α × α)) (j : Nat) (h : l.length ≤ j) :
    frameAt l j = 0 := by
  induction l generalizing j with
  | nil => exact frameAt_nil j
  | cons a t ih =>
    cases j with
    | zero => simp at h
    | succ i =>
      rw [frameAt_cons_succ]
      exact ih i (by simpa using h)

theorem frame_split (l r x y : α) : (l + x, r + y) = ((l, r) : α × α) + (0 + x, 0 + y) := by
  simp

theorem ext_of_frameAt (a b : List (α × α)) (hlen : a.length = b.length)
    (h : ∀ j, j < a.length → frameAt a j = frameAt b j) : a = b := by
  induction a generalizing b with
  | nil =>
    cases b with
    | nil => rfl
    | cons y t => simp at hlen
  | cons x s ih =>
    cases b with
    | nil => simp at hlen
    | cons y t =>
      have h0 := h 0 (by simp)
      rw [frameAt_cons_zero, frameAt_cons_zero] at h0
      have ht : s = t := by
        apply ih t (by simpa using hlen)
        intro j hj
        have := h (j + 1) (by simpa using hj)
        rwa [frameAt_cons_succ, frameAt_cons_succ] at this
      rw [h0, ht]

end FrameLemmas

/-! ## The passes of `mix_fragment` start from the buffer they are given and add to it -/

section AdditivityLemmas

variable {α : Type} [LinearOrderedField α]

theorem soundLoop_zero_based (speed : Nat) (length : Int) (data : List Nat) (vl vr : α)
    (loop : Bool) :
    ∀ (output : List (α × α)) (pos : Int) (frac : Nat),
      (mix_fragment.soundLoop speed length data vl vr loop output pos frac).pos
        = (mix_fragment.soundLoop speed length data vl vr loop
            (List.replicate output.length (0, 0)) pos frac).pos ∧
      (mix_fragment.soundLoop speed length data vl vr loop output pos frac).frac
        = (mix_fragment.soundLoop speed length data vl vr loop
            (List.replicate output.length (0, 0)) pos frac).frac ∧
      (mix_fragment.soundLoop speed length data vl vr loop output pos frac).playing
        = (mix_fragment.soundLoop speed length data vl vr loop
            (List.replicate output.length (0, 0)) pos frac).playing ∧
      (mix_fragment.soundLoop speed length data vl vr loop output pos frac).reads
        = (mix_fragment.soundLoop speed length data vl vr loop
            (List.replicate output.length (0, 0)) pos frac).reads ∧
      (mix_fragment.soundLoop speed length data vl vr loop output pos frac).output.length
        = output.length ∧
      ∀ j, frameAt
          (mix_fragment.soundLoop speed length data vl vr loop output pos frac).output j
        = frameAt output j + frameAt (mix_fragment.soundLoop speed length data vl vr loop
            (List.replicate output.length (0, 0)) pos frac).output j := by
  intro output
  induction output with
  | nil =>
    intro pos frac
    simp [mix_fragment.soundLoop, frameAt_nil]
  | cons hd tl ih =>
    intro pos frac
    obtain ⟨l, r⟩ := hd
    simp only [List.length_cons, List.replicate_succ, mix_fragment.soundLoop]
    split
    · split
      · refine ⟨rfl, rfl, rfl, rfl, by simp, ?_⟩
        intro j
        cases j with
        | zero => simp only [frameAt_cons_zero]; exact frame_split l r _ _
        | succ i => simp only [frameAt_cons_succ, frameAt_zeros, add_zero]
      · have h := ih (cRem (advance speed pos frac).1 length) (advance speed pos frac).2
        refine ⟨h.1, h.2.1, h.2.2.1, by rw [h.2.2.2.1], by simp [h.2.2.2.2.1], ?_⟩
        intro j
        cases j with
        | zero => simp only [frameAt_cons_zero]; exact frame_split l r _ _
        | succ i => simp only [frameAt_cons_succ]; exact h.2.2.2.2.2 i
    · have h := ih (advance speed pos frac).1 (advance speed pos frac).2
      refine ⟨h.1, h.2.1, h.2.2.1, by rw [h.2.2.2.1], by simp [h.2.2.2.2.1], ?_⟩
      intro j
      cases j with
      | zero => simp only [frameAt_cons_zero]; exact frame_split l r _ _
      | succ i => simp only [frameAt_cons_succ]; exact h.2.2.2.2.2 i

theorem musicLoop_zero_based (speed : Nat) (length : Int) (data : List α) (loop : Bool) :
    ∀ (output : List (α × α)) (pos : Int) (frac : Nat),
      (mix_fragment.musicLoop speed length data loop output pos frac).pos
        = (mix_fragment.musicLoop speed length data loop
            (List.replicate output.length (0, 0)) pos frac).pos ∧
      (mix_fragment.musicLoop speed length data loop output pos frac).frac
        = (mix_fragment.musicLoop speed length data loop
            (List.replicate output.length (0, 0)) pos frac).frac ∧
      (mix_fragment.musicLoop speed length data loop output pos frac).playing
        = (mix_fragment.musicLoop speed length data loop
            (List.replicate output.length (0, 0)) pos frac).playing ∧
      (mix_fragment.musicLoop speed length data loop output pos frac).output.length
        = output.length ∧
      ∀ j, frameAt (mix_fragment.musicLoop speed length data loop output pos frac).output j
        = frameAt output j + frameAt (mix_fragment.musicLoop speed length data loop
            (List.replicate output.length (0, 0)) pos frac).output j := by
  intro output
  induction output with
  | nil =>
    intro pos frac
    simp [mix_fragment.musicLoop, frameAt_nil]
  | cons hd tl ih =>
    intro pos frac
    obtain ⟨l, r⟩ := hd
    simp only [List.length_cons, List.replicate_succ, mix_fragment.musicLoop]
    split
    · split
      · refine ⟨rfl, rfl, rfl, by simp, ?_⟩
        intro j
        cases j with
        | zero => simp only [frameAt_cons_zero]; exact frame_split l r _ _
        | succ i => simp only [frameAt_cons_succ, frameAt_zeros, add_zero]
      · have h := ih (cRem (advance speed pos frac).1 length) (advance speed pos frac).2
        refine ⟨h.1, h.2.1, h.2.2.1, by simp [h.2.2.2.1], ?_⟩
        intro j
        cases j with
        | zero => simp only [frameAt_cons_zero]; exact frame_split l r _ _
        | succ i => simp only [frameAt_cons_succ]; exact h.2.2.2.2 i
    · have h := ih (advance speed pos frac).1 (advance speed pos frac).2
      refine ⟨h.1, h.2.1, h.2.2.1, by simp [h.2.2.2.1], ?_⟩
      intro j
      cases j with
      | zero => simp only [frameAt_cons_zero]; exact frame_split l r _ _
      | succ i => simp only [frameAt_cons_succ]; exact h.2.2.2.2 i

end AdditivityLemmas

/-! ## From the loops to `mix_fragment` -/

section LiftingLemmas

variable {α : Type} [LinearOrderedField α]

theorem sound_not_playing (mixing_frequency : Int) (src : SoundSource α)
    (output : List (α × α)) (h : src.playing = false) :
    mix_fragment.sound mixing_frequency src output = (src, output) := by
  simp [mix_fragment.sound, h]

theorem sound_zero_based (mixing_frequency : Int) (src : SoundSource α)
    (output : List (α × α)) :
    (mix_fragment.sound mixing_frequency src output).1
      = (mix_fragment.sound mixing_frequency src
          (List.replicate output.length (0, 0))).1 ∧
    (mix_fragment.sound mixing_frequency src output).2.length = output.length ∧
    ∀ j, frameAt (mix_fragment.sound mixing_frequency src output).2 j
      = frameAt output j + frameAt (mix_fragment.sound mixing_frequency src
          (List.replicate output.length (0, 0))).2 j := by
  cases hp : src.playing with
  | false =>
    rw [sound_not_playing mixing_frequency src output hp,
      sound_not_playing mixing_frequency src _ hp]
    refine ⟨rfl, rfl, ?_⟩
    intro j
    simp only [frameAt_zeros, add_zero]
  | true =>
    have h := soundLoop_zero_based (playbackSpeed src.sampleRate mixing_frequency)
      src.length src.data (mix_fragment.volume_left src) (mix_fragment.volume_right src)
      src.loop output src.pos src.frac
    simp only [mix_fragment.sound, hp, if_true, mix_fragment.soundRun]
    refine ⟨?_, h.2.2.2.2.1, h.2.2.2.2.2⟩
    rw [h.1, h.2.1, h.2.2.1]

theorem sounds_zero_based (mixing_frequency : Int) :
    ∀ (sources : List (SoundSource α)) (output : List (α × α)),
      (mix_fragment.sounds mixing_frequency sources output).1
        = sources.map (fun src => (mix_fragment.sound mixing_frequency src
            (List.replicate output.length (0, 0))).1) ∧
      (mix_fragment.sounds mixing_frequency sources output).2.length = output.length ∧
      ∀ j, frameAt (mix_fragment.sounds mixing_frequency sources output).2 j
        = frameAt output j + (sources.map (fun src =>
            frameAt (mix_fragment.sound mixing_frequency src
              (List.replicate output.length (0, 0))).2 j)).sum := by
  intro sources
  induction sources with
  | nil =>
    intro output
    simp [mix_fragment.sounds]
  | cons src rest ih =>
    intro output
    have h1 := sound_zero_based mixing_frequency src output
    have h2 := ih (mix_fragment.sound mixing_frequency src output).2
    rw [h1.2.1] at h2
    simp only [mix_fragment.sounds, List.map_cons, List.sum_cons]
    refine ⟨?_, h2.2.1, ?_⟩
    · rw [h2.1, ← h1.1]
    · intro j
      rw [h2.2.2 j, h1.2.2 j, add_assoc]

theorem music_not_playing (mixing_frequency : Int) (music : MusicSource α)
    (output : List (α × α)) (h : music.playing = false) :
    mix_fragment.music mixing_frequency music output = (music, output) := by
  simp [mix_fragment.music, h]

theorem music_zero_based (mixing_frequency : Int) (music : MusicSource α)
    (output : List (α × α)) :
    (mix_fragment.music mixing_frequency music output).1
      = (mix_fragment.music mixing_frequency music
          (List.replicate output.length (0, 0))).1 ∧
    (mix_fragment.music mixing_frequency music output).2.length = output.length ∧
    ∀ j, frameAt (mix_fragment.music mixing_frequency music output).2 j
      = frameAt output j + frameAt (mix_fragment.music mixing_frequency music
          (List.replicate output.length (0, 0))).2 j := by
  cases hp : music.playing with
  | false =>
    rw [music_not_playing mixing_frequency music output hp,
      music_not_playing mixing_frequency music _ hp]
    refine ⟨rfl, rfl, ?_⟩
    intro j
    simp only [frameAt_zeros, add_zero]
  | true =>
    have h := musicLoop_zero_based (playbackSpeed music.sample_rate mixing_frequency)
      (toInt32 (music.song_data.length / 2)) music.song_data music.loop output
      music.pos music.frac
    simp only [mix_fragment.music, hp, if_true, mix_fragment.musicRun]
    refine ⟨?_, h.2.2.2.1, h.2.2.2.2⟩
    rw [h.1, h.2.1, h.2.2.1]

/-- The fragment rendered by `mix_fragment`, frame by frame: the sum over the slots of
what each pass adds to a zeroed buffer, plus what the music pass adds to one. -/
theorem mix_fragment_frames (s : Mixer α) :
    (mix_fragment s).sources
      = s.sources.map (fun src => (mix_fragment.sound s.mixing_frequency src
          (List.replicate s.fragment_size (0, 0))).1) ∧
    (mix_fragment s).music
      = (mix_fragment.music s.mixing_frequency s.music
          (List.replicate s.fragment_size (0, 0))).1 ∧
    (mix_fragment s).next_fragment.length = s.fragment_size ∧
    ∀ j, frameAt (mix_fragment s).next_fragment j
      = (s.sources.map (fun src => frameAt (mix_fragment.sound s.mixing_frequency src
            (List.replicate s.fragment_size (0, 0))).2 j)).sum
        + frameAt (mix_fragment.music s.mixing_frequency s.music
            (List.replicate s.fragment_size (0, 0))).2 j := by
  have h1 := sounds_zero_based s.mixing_frequency s.sources
    (List.replicate s.fragment_size ((0 : α), (0 : α)))
  have h2 := music_zero_based s.mixing_frequency s.music
    (mix_fragment.sounds s.mixing_frequency s.sources
      (List.replicate s.fragment_size ((0 : α), (0 : α)))).2
  rw [h1.2.1] at h2
  simp only [List.length_replicate] at h1 h2
  simp only [mix_fragment]
  refine ⟨h1.1, h2.1, h2.2.1, ?_⟩
  intro j
  rw [h2.2.2 j, h1.2.2 j, frameAt_zeros, zero_add]

theorem slot_map (f : SoundSource α → SoundSource α) (sources : List (SoundSource α))
    (h : Nat) (hh : h < sources.length) :
    slot (sources.map f) h = f (slot sources h) := by
  induction sources generalizing h with
  | nil => simp at hh
  | cons a t ih =>
    cases h with
    | zero => simp [slot_cons_zero]
    | succ n =>
      simp only [List.map_cons, slot_cons_succ]
      exact ih n (by simpa using hh)

end LiftingLemmas

/-! ## Rendering voices alone -/

section SoloLemmas

variable {α : Type} [LinearOrderedField α]

theorem sum_map_muted (g : SoundSource α → α × α) (hg : ∀ src, g (muted src) = 0)
    (sources : List (SoundSource α)) : ((sources.map muted).map g).sum = 0 := by
  induction sources with
  | nil => rfl
  | cons a t ih => simp only [List.map_cons, List.sum_cons, hg a, ih, add_zero]

theorem sum_muteOthers (g : SoundSource α → α × α) (hg : ∀ src, g (muted src) = 0) :
    ∀ (sources : List (SoundSource α)) (h : Nat), h < sources.length →
      ((muteOthers sources h).map g).sum = g (slot sources h) := by
  intro sources
  induction sources with
  | nil => intro h hh; simp at hh
  | cons a t ih =>
    intro h hh
    cases h with
    | zero =>
      simp only [muteOthers, List.map_cons, List.sum_cons, sum_map_muted g hg t, add_zero,
        slot_cons_zero]
    | succ n =>
      simp only [muteOthers, List.map_cons, List.sum_cons, hg a, zero_add, slot_cons_succ]
      exact ih n (by simpa using hh)

theorem sum_playing_handles (g : SoundSource α → α × α)
    (hg : ∀ src, src.playing = false → g src = 0) :
    ∀ (sources : List (SoundSource α)),
      (((List.range sources.length).filter (fun h => (slot sources h).playing)).map
        (fun h => g (slot sources h))).sum = (sources.map g).sum := by
  intro sources
  induction sources with
  | nil => rfl
  | cons a t ih =>
    have htail : (((List.range t.length).map Nat.succ).filter
          (fun h => (slot (a :: t) h).playing)).map (fun h => g (slot (a :: t) h))
        = ((List.range t.length).filter (fun h => (slot t h).playing)).map
            (fun h => g (slot t h)) := by
      rw [List.filter_map, List.map_map]
      rfl
    rw [List.length_cons, List.range_succ_eq_map, List.filter_cons]
    cases hp : a.playing with
    | false =>
      simp only [slot_cons_zero, hp, Bool.false_eq_true, if_false, htail, ih, List.map_cons,
        List.sum_cons, hg a hp, zero_add]
    | true =>
      simp only [slot_cons_zero, hp, if_true, htail, ih, List.map_cons, List.sum_cons]

theorem soloSound_frame (s : Mixer α) (h : Nat) (hh : h < s.sources.length) (j : Nat) :
    frameAt (mix_fragment (soloSound s h)).next_fragment j
      = frameAt (mix_fragment.sound s.mixing_frequency (slot s.sources h)
          (List.replicate s.fragment_size (0, 0))).2 j := by
  have hm := (mix_fragment_frames (soloSound s h)).2.2.2 j
  simp only [soloSound] at hm
  rw [music_not_playing _ _ _ rfl, frameAt_zeros, add_zero] at hm
  rw [sum_muteOthers _ (fun src => by
    rw [sound_not_playing _ _ _ rfl]; exact frameAt_zeros _ _) s.sources h hh] at hm
  exact hm

theorem soloMusic_frame (s : Mixer α) (j : Nat) :
    frameAt (mix_fragment (soloMusic s)).next_fragment j
      = frameAt (mix_fragment.music s.mixing_frequency s.music
          (List.replicate s.fragment_size (0, 0))).2 j := by
  have hm := (mix_fragment_frames (soloMusic s)).2.2.2 j
  simp only [soloMusic] at hm
  rw [sum_map_muted _ (fun src => by
    rw [sound_not_playing _ _ _ rfl]; exact frameAt_zeros _ _) s.sources, zero_add] at hm
  exact hm

theorem mix_fragment_eq_soloSum (s : Mixer α) (j : Nat) :
    frameAt (mix_fragment s).next_fragment j = soloSum s j := by
  have hsolo : (playingHandles s).map
        (fun h => frameAt (mix_fragment (soloSound s h)).next_fragment j)
      = (playingHandles s).map
        (fun h => frameAt (mix_fragment.sound s.mixing_frequency (slot s.sources h)
          (List.replicate s.fragment_size (0, 0))).2 j) := by
    apply List.map_congr_left
    intro h hmem
    have hh : h < s.sources.length := by
      have := (List.mem_filter.mp hmem).1
      simpa using this
    exact soloSound_frame s h hh j
  have hsum := sum_playing_handles
    (fun src => frameAt (mix_fragment.sound s.mixing_frequency src
      (List.replicate s.fragment_size ((0 : α), (0 : α)))).2 j)
    (fun src hp => by
      simp only [sound_not_playing _ _ _ hp]; exact frameAt_zeros _ _) s.sources
  rw [(mix_fragment_frames s).2.2.2 j, soloSum, hsolo]
  simp only [playingHandles]
  rw [hsum]
  congr 1
  cases hp : s.music.playing with
  | false =>
    simp only [Bool.false_eq_true, if_false, music_not_playing _ _ _ hp]
    exact frameAt_zeros _ _
  | true =>
    simp only [if_true]
    exact (soloMusic_frame s j).symm

theorem mix_fragment_silent (s : Mixer α)
    (hs : ∀ src ∈ s.sources, src.playing = false) (hm : s.music.playing = false) :
    (mix_fragment s).next_fragment = List.replicate s.fragment_size (0, 0) := by
  have hf := mix_fragment_frames s
  apply ext_of_frameAt
  · rw [hf.2.2.1, List.length_replicate]
  · intro j _
    rw [hf.2.2.2 j, music_not_playing _ _ _ hm, frameAt_zeros, add_zero]
    have hz : s.sources.map (fun src => frameAt (mix_fragment.sound s.mixing_frequency src
          (List.replicate s.fragment_size ((0 : α), (0 : α)))).2 j)
        = s.sources.map (fun _ => (0 : α × α)) := by
      apply List.map_congr_left
      intro src hmem
      rw [sound_not_playing _ _ _ (hs src hmem)]
      exact frameAt_zeros _ _
    rw [hz]
    simp

end SoloLemmas

/-! ## The end of a sound that does not loop -/

section StopLemmas

variable {α : Type} [LinearOrderedField α]

theorem cursorAfter_zero (speed : Nat) (pos : Int) (frac : Nat) :
    cursorAfter speed 0 pos frac = (pos, frac) := rfl

theorem cursorAfter_succ (speed : Nat) (k : Nat) (pos : Int) (frac : Nat) :
    cursorAfter speed (k + 1) pos frac
      = cursorAfter speed k (advance speed pos frac).1 (advance speed pos frac).2 := rfl

theorem frame_add (l r x y : α) : (l + x, r + y) = ((l, r) : α × α) + (x, y) := rfl

theorem soundLoop_stops_at (speed : Nat) (length : Int) (data : List Nat) (vl vr : α) :
    ∀ (output : List (α × α)) (pos : Int) (frac : Nat) (k : Nat), k < output.length →
      (∀ j, j < k → (cursorAfter speed (j + 1) pos frac).1 < length) →
      length ≤ (cursorAfter speed (k + 1) pos frac).1 →
      (mix_fragment.soundLoop speed length data vl vr false output pos frac).playing
        = false ∧
      (mix_fragment.soundLoop speed length data vl vr false output pos frac).pos = 0 ∧
      (mix_fragment.soundLoop speed length data vl vr false output pos frac).frac = 0 ∧
      (∀ j, j ≤ k →
        frameAt (mix_fragment.soundLoop speed length data vl vr false output pos frac).output j
          = frameAt output j
            + (decodeSample (readByte data (cursorAfter speed j pos frac).1) * vl,
               decodeSample (readByte data (cursorAfter speed j pos frac).1) * vr)) ∧
      (∀ j, k < j →
        frameAt (mix_fragment.soundLoop speed length data vl vr false output pos frac).output j
          = frameAt output j) := by
  intro output
  induction output with
  | nil =>
    intro pos frac k hk
    simp at hk
  | cons hd tl ih =>
    intro pos frac k hk hbefore hreach
    obtain ⟨l, r⟩ := hd
    cases k with
    | zero =>
      have hfirst : length ≤ (advance speed pos frac).1 := by
        simpa [cursorAfter_succ, cursorAfter_zero] using hreach
      simp only [mix_fragment.soundLoop, ge_iff_le, hfirst, if_true, Bool.not_false]
      refine ⟨trivial, trivial, trivial, ?_, ?_⟩
      · intro j hj
        have hj0 : j = 0 := by omega
        subst hj0
        simp only [frameAt_cons_zero, cursorAfter_zero]; rfl
      · intro j hj
        cases j with
        | zero => omega
        | succ i => simp only [frameAt_cons_succ]
    | succ m =>
      have hfirst : (advance speed pos frac).1 < length := by
        have := hbefore 0 (by omega)
        simpa [cursorAfter_succ, cursorAfter_zero] using this
      have hrec := ih (advance speed pos frac).1 (advance speed pos frac).2 m
        (by simpa using hk)
        (fun j hj => by
          have := hbefore (j + 1) (by omega)
          rwa [cursorAfter_succ] at this)
        (by rwa [cursorAfter_succ] at hreach)
      simp only [mix_fragment.soundLoop, ge_iff_le, not_le.mpr hfirst, if_false]
      refine ⟨hrec.1, hrec.2.1, hrec.2.2.1, ?_, ?_⟩
      · intro j hj
        cases j with
        | zero => simp only [frameAt_cons_zero, cursorAfter_zero]; rfl
        | succ i =>
          simp only [frameAt_cons_succ, cursorAfter_succ]
          exact hrec.2.2.2.1 i (by omega)
      · intro j hj
        cases j with
        | zero => omega
        | succ i =>
          simp only [frameAt_cons_succ]
          exact hrec.2.2.2.2 i (by omega)

theorem sum_updateSlot_muted (g : SoundSource α → α × α) (hg : ∀ src, g (muted src) = 0) :
    ∀ (sources : List (SoundSource α)) (h : Nat), h < sources.length →
      (sources.map g).sum = ((updateSlot muted sources h).map g).sum + g (slot sources h) := by
  intro sources
  induction sources with
  | nil => intro h hh; simp at hh
  | cons a t ih =>
    intro h hh
    cases h with
    | zero =>
      simp only [updateSlot, List.map_cons, List.sum_cons, hg a, zero_add, slot_cons_zero]
      exact add_comm _ _
    | succ n =>
      simp only [updateSlot, List.map_cons, List.sum_cons, slot_cons_succ]
      rw [ih n (by simpa using hh), add_assoc]

/-- The fragment is the fragment rendered without voice `h` plus what the pass over
slot `h` adds to a zeroed buffer. -/
theorem mix_fragment_split_voice (s : Mixer α) (h : Nat) (hh : h < s.sources.length)
    (j : Nat) :
    frameAt (mix_fragment s).next_fragment j
      = frameAt (mix_fragment (withoutSound s h)).next_fragment j
        + frameAt (mix_fragment.sound s.mixing_frequency (slot s.sources h)
            (List.replicate s.fragment_size (0, 0))).2 j := by
  have h1 := (mix_fragment_frames s).2.2.2 j
  have h2 : frameAt (mix_fragment (withoutSound s h)).next_fragment j
      = ((updateSlot muted s.sources h).map (fun src =>
          frameAt (mix_fragment.sound s.mixing_frequency src
            (List.replicate s.fragment_size (0, 0))).2 j)).sum
        + frameAt (mix_fragment.music s.mixing_frequency s.music
            (List.replicate s.fragment_size (0, 0))).2 j :=
    (mix_fragment_frames (withoutSound s h)).2.2.2 j
  rw [h1, h2, sum_updateSlot_muted _ (fun src => by
    rw [sound_not_playing _ _ _ rfl]; exact frameAt_zeros _ _) s.sources h hh]
  abel

theorem mix_fragment_slot (s : Mixer α) (h : Nat) (hh : h < s.sources.length) :
    slot (mix_fragment s).sources h
      = (mix_fragment.sound s.mixing_frequency (slot s.sources h)
          (List.replicate s.fragment_size (0, 0))).1 := by
  rw [(mix_fragment_frames s).1, slot_map _ _ _ hh]

theorem checkSoundDone_of_stopped (MAX_VOICES : Nat) (s : Mixer α) (h : Nat)
    (hstopped : (slot s.sources h).playing = false) :
    I_CheckSoundDone MAX_VOICES s (h : Int) = 1 := by
  have hp : I_CheckSoundPlaying MAX_VOICES s (h : Int) = 0 := by
    by_cases hr : (h : Int) < 0 ∨ (h : Int) ≥ MAX_VOICES
    · simp only [I_CheckSoundPlaying, if_pos hr]
    · simp only [I_CheckSoundPlaying, if_neg hr, Int.toNat_ofNat, hstopped]
      simp
  simp only [I_CheckSoundDone, hp, if_true]

end StopLemmas

/-! ## One voice within `mix_fragment` -/

section VoiceLemmas

variable {α : Type} [LinearOrderedField α]

theorem mix_fragment_stops_voice (s : Mixer α) (h k : Nat) (hh : h < s.sources.length)
    (hplaying : (slot s.sources h).playing = true)
    (hloop : (slot s.sources h).loop = false) (hk : k < s.fragment_size)
    (hbefore : ∀ j, j < k →
      (slotCursor s.mixing_frequency (slot s.sources h) (j + 1)).1
        < (slot s.sources h).length)
    (hreach : (slot s.sources h).length
      ≤ (slotCursor s.mixing_frequency (slot s.sources h) (k + 1)).1) :
    slot (mix_fragment s).sources h
      = { slot s.sources h with playing := false, pos := 0, frac := 0 } ∧
    (∀ j, j ≤ k →
      frameAt (mix_fragment s).next_fragment j
        = frameAt (mix_fragment (withoutSound s h)).next_fragment j
          + mix_fragment.soundFrame (slot s.sources h)
              (slotCursor s.mixing_frequency (slot s.sources h) j).1) ∧
    (∀ j, k < j →
      frameAt (mix_fragment s).next_fragment j
        = frameAt (mix_fragment (withoutSound s h)).next_fragment j) := by
  have hstop := soundLoop_stops_at
    (playbackSpeed (slot s.sources h).sampleRate s.mixing_frequency)
    (slot s.sources h).length (slot s.sources h).data
    (mix_fragment.volume_left (slot s.sources h))
    (mix_fragment.volume_right (slot s.sources h))
    (List.replicate s.fragment_size ((0 : α), (0 : α))) (slot s.sources h).pos
    (slot s.sources h).frac k (by simpa using hk) hbefore hreach
  have hsound : mix_fragment.sound s.mixing_frequency (slot s.sources h)
        (List.replicate s.fragment_size ((0 : α), (0 : α)))
      = ({ slot s.sources h with playing := false, pos := 0, frac := 0 },
         (mix_fragment.soundLoop
            (playbackSpeed (slot s.sources h).sampleRate s.mixing_frequency)
            (slot s.sources h).length (slot s.sources h).data
            (mix_fragment.volume_left (slot s.sources h))
            (mix_fragment.volume_right (slot s.sources h)) false
            (List.replicate s.fragment_size ((0 : α), (0 : α))) (slot s.sources h).pos
            (slot s.sources h).frac).output) := by
    simp only [mix_fragment.sound, hplaying, if_true, mix_fragment.soundRun, hloop,
      hstop.1, hstop.2.1, hstop.2.2.1]
  refine ⟨?_, ?_, ?_⟩
  · rw [mix_fragment_slot s h hh, hsound]
  · intro j hj
    rw [mix_fragment_split_voice s h hh j, hsound, hstop.2.2.2.1 j hj, frameAt_zeros,
      zero_add]
    rfl
  · intro j hj
    rw [mix_fragment_split_voice s h hh j, hsound, hstop.2.2.2.2 j hj, frameAt_zeros,
      add_zero]

theorem cursorAfter_unit :
    ∀ (k : Nat) (pos : Int) (frac : Nat), frac < 65536 → -2147483648 ≤ pos →
      pos + k < 2147483648 → cursorAfter 65536 k pos frac = (pos + k, frac) := by
  intro k
  induction k with
  | zero => intro pos frac _ _ _; simp [cursorAfter_zero]
  | succ m ih =>
    intro pos frac hfrac h0 h1
    rw [cursorAfter_succ, advance_unit pos frac hfrac h0 (by omega)]
    rw [ih (pos + 1) frac hfrac (by omega) (by push_cast at h1; omega)]
    push_cast
    congr 1
    ring

theorem all_stopped_of_slots (sources : List (SoundSource α))
    (h : ∀ i, (slot sources i).playing = false) : ∀ src ∈ sources, src.playing = false := by
  induction sources with
  | nil => intro src hmem; simp at hmem
  | cons a t ih =>
    intro src hmem
    rcases List.mem_cons.mp hmem with e | e
    · rw [e]
      have := h 0
      rwa [slot_cons_zero] at this
    · exact ih (fun i => by
        have := h (i + 1)
        rwa [slot_cons_succ] at this) src e

theorem decodeSample_eq (b : Nat) :
    (decodeSample b : α) = min (max (((b : α) - 127) / 127) (-1)) 1 := by
  simp only [decodeSample]
  congr 2
  push_cast
  ring

end VoiceLemmas

/-! ## The voice invariant along sequences of calls -/

section InvariantLemmas

variable {α : Type} [LinearOrderedField α]

end InvariantLemmas

/-! ## A fragment rendered in two parts -/

section SplitLemmas

variable {α : Type} [LinearOrderedField α]

theorem soundLoop_append (speed : Nat) (length : Int) (data : List Nat) (vl vr : α)
    (loop : Bool) :
    ∀ (first second : List (α × α)) (pos : Int) (frac : Nat),
      mix_fragment.soundLoop speed length data vl vr loop (first ++ second) pos frac
        = if (mix_fragment.soundLoop speed length data vl vr loop first pos frac).playing
          then
            { output :=
                (mix_fragment.soundLoop speed length data vl vr loop first pos frac).output
                  ++ (mix_fragment.soundLoop speed length data vl vr loop second
                    (mix_fragment.soundLoop speed length data vl vr loop first pos frac).pos
                    (mix_fragment.soundLoop speed length data vl vr loop first pos
                      frac).frac).output,
              pos := (mix_fragment.soundLoop speed length data vl vr loop second
                    (mix_fragment.soundLoop speed length data vl vr loop first pos frac).pos
                    (mix_fragment.soundLoop speed length data vl vr loop first pos
                      frac).frac).pos,
              frac := (mix_fragment.soundLoop speed length data vl vr loop second
                    (mix_fragment.soundLoop speed length data vl vr loop first pos frac).pos
                    (mix_fragment.soundLoop speed length data vl vr loop first pos
                      frac).frac).frac,
              playing := (mix_fragment.soundLoop speed length data vl vr loop second
                    (mix_fragment.soundLoop speed length data vl vr loop first pos frac).pos
                    (mix_fragment.soundLoop speed length data vl vr loop first pos
                      frac).frac).playing,
              reads :=
                (mix_fragment.soundLoop speed length data vl vr loop first pos frac).reads
                  ++ (mix_fragment.soundLoop speed length data vl vr loop second
                    (mix_fragment.soundLoop speed length data vl vr loop first pos frac).pos
                    (mix_fragment.soundLoop speed length data vl vr loop first pos
                      frac).frac).reads }
          else
            { mix_fragment.soundLoop speed length data vl vr loop first pos frac with
              output :=
                (mix_fragment.soundLoop speed length data vl vr loop first pos frac).output
                  ++ second } := by
  intro first
  induction first with
  | nil =>
    intro second pos frac
    simp [mix_fragment.soundLoop]
  | cons hd tl ih =>
    intro second pos frac
    obtain ⟨l, r⟩ := hd
    rw [List.cons_append]
    simp only [mix_fragment.soundLoop, List.append_eq]
    split
    · split
      · simp
      · rw [ih]
        split <;> simp
    · rw [ih]
      split <;> simp

theorem musicLoop_append (speed : Nat) (length : Int) (data : List α) (loop : Bool) :
    ∀ (first second : List (α × α)) (pos : Int) (frac : Nat),
      mix_fragment.musicLoop speed length data loop (first ++ second) pos frac
        = if (mix_fragment.musicLoop speed length data loop first pos frac).playing
          then
            { output :=
                (mix_fragment.musicLoop speed length data loop first pos frac).output
                  ++ (mix_fragment.musicLoop speed length data loop second
                    (mix_fragment.musicLoop speed length data loop first pos frac).pos
                    (mix_fragment.musicLoop speed length data loop first pos
                      frac).frac).output,
              pos := (mix_fragment.musicLoop speed length data loop second
                    (mix_fragment.musicLoop speed length data loop first pos frac).pos
                    (mix_fragment.musicLoop speed length data loop first pos
                      frac).frac).pos,
              frac := (mix_fragment.musicLoop speed length data loop second
                    (mix_fragment.musicLoop speed length data loop first pos frac).pos
                    (mix_fragment.musicLoop speed length data loop first pos
                      frac).frac).frac,
              playing := (mix_fragment.musicLoop speed length data loop second
                    (mix_fragment.musicLoop speed length data loop first pos frac).pos
                    (mix_fragment.musicLoop speed length data loop first pos
                      frac).frac).playing,
              reads :=
                (mix_fragment.musicLoop speed length data loop first pos frac).reads
                  ++ (mix_fragment.musicLoop speed length data loop second
                    (mix_fragment.musicLoop speed length data loop first pos frac).pos
                    (mix_fragment.musicLoop speed length data loop first pos
                      frac).frac).reads }
          else
            { mix_fragment.musicLoop speed length data loop first pos frac with
              output :=
                (mix_fragment.musicLoop speed length data loop first pos frac).output
                  ++ second } := by
  intro first
  induction first with
  | nil =>
    intro second pos frac
    simp [mix_fragment.musicLoop]
  | cons hd tl ih =>
    intro second pos frac
    obtain ⟨l, r⟩ := hd
    rw [List.cons_append]
    simp only [mix_fragment.musicLoop, List.append_eq]
    split
    · split
      · simp
      · rw [ih]
        split <;> simp
    · rw [ih]
      split <;> simp

theorem sound_append (mixing_frequency : Int) (src : SoundSource α)
    (first second : List (α × α)) :
    mix_fragment.sound mixing_frequency src (first ++ second)
      = ((mix_fragment.sound mixing_frequency
            (mix_fragment.sound mixing_frequency src first).1 second).1,
         (mix_fragment.sound mixing_frequency src first).2
           ++ (mix_fragment.sound mixing_frequency
            (mix_fragment.sound mixing_frequency src first).1 second).2) := by
  cases hp : src.playing with
  | false =>
    simp only [sound_not_playing _ _ _ hp]
  | true =>
    simp only [mix_fragment.sound, hp, if_true, mix_fragment.soundRun,
      mix_fragment.volume_left, mix_fragment.volume_right]
    rw [soundLoop_append]
    split <;> rename_i hq
    · simp [hq]
    · simp [hq]

theorem sounds_append (mixing_frequency : Int) :
    ∀ (sources : List (SoundSource α)) (first second : List (α × α)),
      mix_fragment.sounds mixing_frequency sources (first ++ second)
        = ((mix_fragment.sounds mixing_frequency
              (mix_fragment.sounds mixing_frequency sources first).1 second).1,
           (mix_fragment.sounds mixing_frequency sources first).2
             ++ (mix_fragment.sounds mixing_frequency
              (mix_fragment.sounds mixing_frequency sources first).1 second).2) := by
  intro sources
  induction sources with
  | nil => intro first second; rfl
  | cons src rest ih =>
    intro first second
    simp only [mix_fragment.sounds]
    rw [sound_append, ih]

theorem music_append (mixing_frequency : Int) (music : MusicSource α)
    (first second : List (α × α)) :
    mix_fragment.music mixing_frequency music (first ++ second)
      = ((mix_fragment.music mixing_frequency
            (mix_fragment.music mixing_frequency music first).1 second).1,
         (mix_fragment.music mixing_frequency music first).2
           ++ (mix_fragment.music mixing_frequency
            (mix_fragment.music mixing_frequency music first).1 second).2) := by
  cases hp : music.playing with
  | false =>
    simp only [music_not_playing _ _ _ hp]
  | true =>
    simp only [mix_fragment.music, hp, if_true, mix_fragment.musicRun]
    rw [musicLoop_append]
    split <;> rename_i hq
    · simp [hq]
    · simp [hq]

theorem renderFrames_split (s : Mixer α) (first second : Nat) :
    (renderFrames first s).next_fragment
        ++ (renderFrames second (renderFrames first s)).next_fragment
      = (renderFrames (first + second) s).next_fragment ∧
    (renderFrames second (renderFrames first s)).sources
      = (renderFrames (first + second) s).sources ∧
    (renderFrames second (renderFrames first s)).music
      = (renderFrames (first + second) s).music := by
  simp only [renderFrames, mix_fragment, List.replicate_add, sounds_append, music_append]
  exact ⟨trivial, trivial, trivial⟩

end SplitLemmas

/-! ## Both inner loops follow the step rule -/

section StepRuleLemmas

variable {α : Type} [LinearOrderedField α]

theorem soundLoop_follows_rule (speed : Nat) (length : Int) (data : List Nat) (vl vr : α)
    (loop : Bool) :
    ∀ (output : List (α × α)) (pos : Int) (frac : Nat),
      (mix_fragment.soundLoop speed length data vl vr loop output pos frac).pos
        = (stepRule speed length loop output.length pos frac).pos ∧
      (mix_fragment.soundLoop speed length data vl vr loop output pos frac).frac
        = (stepRule speed length loop output.length pos frac).frac ∧
      (mix_fragment.soundLoop speed length data vl vr loop output pos frac).playing
        = (stepRule speed length loop output.length pos frac).playing ∧
      (mix_fragment.soundLoop speed length data vl vr loop output pos frac).reads
        = (stepRule speed length loop output.length pos frac).positions := by
  intro output
  induction output with
  | nil => intro pos frac; simp [mix_fragment.soundLoop, stepRule]
  | cons hd tl ih =>
    intro pos frac
    obtain ⟨l, r⟩ := hd
    simp only [mix_fragment.soundLoop, stepRule, List.length_cons]
    split
    · split
      · simp
      · have h := ih (cRem (advance speed pos frac).1 length) (advance speed pos frac).2
        exact ⟨h.1, h.2.1, h.2.2.1, by rw [h.2.2.2]⟩
    · have h := ih (advance speed pos frac).1 (advance speed pos frac).2
      exact ⟨h.1, h.2.1, h.2.2.1, by rw [h.2.2.2]⟩

theorem musicLoop_follows_rule (speed : Nat) (length : Int) (data : List α) (loop : Bool) :
    ∀ (output : List (α × α)) (pos : Int) (frac : Nat),
      (mix_fragment.musicLoop speed length data loop output pos frac).pos
        = (stepRule speed length loop output.length pos frac).pos ∧
      (mix_fragment.musicLoop speed length data loop output pos frac).frac
        = (stepRule speed length loop output.length pos frac).frac ∧
      (mix_fragment.musicLoop speed length data loop output pos frac).playing
        = (stepRule speed length loop output.length pos frac).playing ∧
      (∀ (j : Nat) (p : Int),
        (stepRule speed length loop output.length pos frac).positions[j]? = some p →
        frameAt (mix_fragment.musicLoop speed length data loop output pos frac).output j
          = frameAt output j
            + (readFloat data (toInt32 (toUInt32 p * 2)),
               readFloat data (toInt32 (toUInt32 p * 2) + 1))) ∧
      (∀ j, (stepRule speed length loop output.length pos frac).positions.length ≤ j →
        frameAt (mix_fragment.musicLoop speed length data loop output pos frac).output j
          = frameAt output j) := by
  intro output
  induction output with
  | nil => intro pos frac; simp [mix_fragment.musicLoop, stepRule]
  | cons hd tl ih =>
    intro pos frac
    obtain ⟨l, r⟩ := hd
    simp only [mix_fragment.musicLoop, stepRule, List.length_cons]
    split
    · split
      · refine ⟨rfl, rfl, rfl, ?_, ?_⟩
        · intro j p hj
          cases j with
          | zero =>
            simp only [List.getElem?_cons_zero, Option.some.injEq] at hj
            rw [← hj, frameAt_cons_zero, frameAt_cons_zero]
            rfl
          | succ i => simp at hj
        · intro j hj
          cases j with
          | zero => simp at hj
          | succ i => simp only [frameAt_cons_succ]
      · have h := ih (cRem (advance speed pos frac).1 length) (advance speed pos frac).2
        refine ⟨h.1, h.2.1, h.2.2.1, ?_, ?_⟩
        · intro j p hj
          cases j with
          | zero =>
            simp only [List.getElem?_cons_zero, Option.some.injEq] at hj
            rw [← hj, frameAt_cons_zero, frameAt_cons_zero]
            rfl
          | succ i =>
            simp only [List.getElem?_cons_succ] at hj
            simp only [frameAt_cons_succ]
            exact h.2.2.2.1 i p hj
        · intro j hj
          cases j with
          | zero => simp at hj
          | succ i =>
            simp only [frameAt_cons_succ]
            exact h.2.2.2.2 i (by simpa using hj)
    · have h := ih (advance speed pos frac).1 (advance speed pos frac).2
      refine ⟨h.1, h.2.1, h.2.2.1, ?_, ?_⟩
      · intro j p hj
        cases j with
        | zero =>
          simp only [List.getElem?_cons_zero, Option.some.injEq] at hj
          rw [← hj, frameAt_cons_zero, frameAt_cons_zero]
          rfl
        | succ i =>
          simp only [List.getElem?_cons_succ] at hj
          simp only [frameAt_cons_succ]
          exact h.2.2.2.1 i p hj
      · intro j hj
        cases j with
        | zero => simp at hj
        | succ i =>
          simp only [frameAt_cons_succ]
          exact h.2.2.2.2 i (by simpa using hj)

theorem musicLoopWithSample_eq (toInt : α → Int) (speed : Nat) (length : Int)
    (data : List α) (loop : Bool) :
    ∀ (output : List (α × α)) (pos : Int) (frac : Nat),
      mix_fragment.musicLoopWithSample toInt speed length data loop output pos frac
        = mix_fragment.musicLoop speed length data loop output pos frac := by
  intro output
  induction output with
  | nil => intro pos frac; rfl
  | cons hd tl ih =>
    intro pos frac
    obtain ⟨l, r⟩ := hd
    simp only [mix_fragment.musicLoopWithSample, mix_fragment.musicLoop, ih]

theorem stepRule_positions_in_bounds (speed : Nat) (length : Int) (loop : Bool)
    (hlen : 0 < length) (hmax : length ≤ 2147418113) (count : Nat) (pos : Int) (frac : Nat)
    (h0 : 0 ≤ pos) (h1 : pos < length) :
    ∀ p ∈ (stepRule speed length loop count pos frac).positions, 0 ≤ p ∧ p < length := by
  have hb := (soundLoop_reads_in_bounds speed length [] (0 : ℚ) 0 loop hlen hmax
    (List.replicate count (0, 0)) pos frac h0 h1).1
  have hr := (soundLoop_follows_rule speed length [] (0 : ℚ) 0 loop
    (List.replicate count (0, 0)) pos frac).2.2.2
  rw [hr, List.length_replicate] at hb
  exact hb

theorem shift_left_one (p : Int) (h0 : 0 ≤ p) (h1 : p < 1073741824) :
    toInt32 (toUInt32 p * 2) = 2 * p := by
  unfold toInt32 toUInt32
  split <;> omega

theorem mix_fragment_split_music (s : Mixer α) (j : Nat) :
    frameAt (mix_fragment s).next_fragment j
      = frameAt (mix_fragment (withoutMusic s)).next_fragment j
        + frameAt (mix_fragment.music s.mixing_frequency s.music
            (List.replicate s.fragment_size (0, 0))).2 j := by
  have h1 := (mix_fragment_frames s).2.2.2 j
  have h2 : frameAt (mix_fragment (withoutMusic s)).next_fragment j
      = (s.sources.map (fun src =>
          frameAt (mix_fragment.sound s.mixing_frequency src
            (List.replicate s.fragment_size (0, 0))).2 j)).sum
        + frameAt (mix_fragment.music s.mixing_frequency { s.music with playing := false }
            (List.replicate s.fragment_size (0, 0))).2 j :=
    (mix_fragment_frames (withoutMusic s)).2.2.2 j
  rw [music_not_playing _ _ _ rfl, frameAt_zeros, add_zero] at h2
  rw [h1, h2]

end StepRuleLemmas

/-! ## The claims -/

section Claims

variable {α : Type} [LinearOrderedField α]

/-- C1: `I_GetSoundHandle` changes no state; when some slot below `_MAX_VOICES` is not
playing it returns the smallest such index; it returns `_ERR_NO_SLOTS` exactly when every
slot is playing (`_ERR_NO_SLOTS` not being a handle); and from a pool of `_MAX_VOICES`
free slots, `_MAX_VOICES` rounds of acquire-then-play return `0, 1, ..., _MAX_VOICES - 1`
(pairwise distinct), after which the next acquire returns `_ERR_NO_SLOTS`. -/
theorem C1_getSoundHandle_first_free (MAX_VOICES : Nat) (ERR_NO_SLOTS : Int)
    (hERR : ERR_NO_SLOTS < 0 ∨ (MAX_VOICES : Int) ≤ ERR_NO_SLOTS) (s : Mixer α)
    (loop : Int) :
    (I_GetSoundHandle MAX_VOICES ERR_NO_SLOTS s).2 = s ∧
    ((¬ ∀ i, i < MAX_VOICES → (slot s.sources i).playing = true) →
      ∃ k, k < MAX_VOICES ∧ (I_GetSoundHandle MAX_VOICES ERR_NO_SLOTS s).1 = (k : Int) ∧
        (slot s.sources k).playing = false ∧
        ∀ j, j < k → (slot s.sources j).playing = true) ∧
    ((I_GetSoundHandle MAX_VOICES ERR_NO_SLOTS s).1 = ERR_NO_SLOTS ↔
      ∀ i, i < MAX_VOICES → (slot s.sources i).playing = true) ∧
    (s.sources.length = MAX_VOICES →
      (∀ i, i < MAX_VOICES → (slot s.sources i).playing = false) →
      (acquireAndPlay MAX_VOICES ERR_NO_SLOTS loop MAX_VOICES s).1
          = (List.range MAX_VOICES).map (fun i : Nat => (i : Int)) ∧
        (acquireAndPlay MAX_VOICES ERR_NO_SLOTS loop MAX_VOICES s).1.Nodup ∧
        (I_GetSoundHandle MAX_VOICES ERR_NO_SLOTS
          (acquireAndPlay MAX_VOICES ERR_NO_SLOTS loop MAX_VOICES s).2).1
            = ERR_NO_SLOTS) := by
  have hfirst : (¬ ∀ i, i < MAX_VOICES → (slot s.sources i).playing = true) →
      ∃ k, k < MAX_VOICES ∧ (I_GetSoundHandle MAX_VOICES ERR_NO_SLOTS s).1 = (k : Int) ∧
        (slot s.sources k).playing = false ∧
        ∀ j, j < k → (slot s.sources j).playing = true := by
    intro hnot
    obtain ⟨k, hk, hfree, hbusy⟩ := exists_first_free s.sources MAX_VOICES hnot
    exact ⟨k, hk, scan_first_free ERR_NO_SLOTS s.sources MAX_VOICES 0 k (Nat.zero_le k)
      (by omega) (fun j _ hj => hbusy j hj) hfree, hfree, hbusy⟩
  refine ⟨rfl, hfirst, ⟨?_, ?_⟩, ?_⟩
  · intro hret
    by_contra hnot
    obtain ⟨k, hk, hretk, _, _⟩ := hfirst hnot
    rw [hret] at hretk
    rcases hERR with h | h
    · rw [hretk] at h
      exact absurd (Int.natCast_nonneg k) (not_le.mpr h)
    · rw [hretk] at h
      have : MAX_VOICES ≤ k := by exact_mod_cast h
      omega
  · intro hall
    exact scan_all_busy ERR_NO_SLOTS s.sources MAX_VOICES 0
      (fun j _ hj => hall j (by omega))
  · intro hlen hfree
    have hrun := acquireAndPlay_from MAX_VOICES ERR_NO_SLOTS loop MAX_VOICES 0 s hlen
      (by omega) (fun i hi => absurd hi (Nat.not_lt_zero i)) (fun i _ hi => hfree i hi)
    have hlist : (acquireAndPlay MAX_VOICES ERR_NO_SLOTS loop MAX_VOICES s).1
        = (List.range MAX_VOICES).map (fun i : Nat => (i : Int)) := by
      rw [hrun.1, List.range_eq_range']
    refine ⟨hlist, ?_, ?_⟩
    · rw [hlist]
      have hinj : Function.Injective (fun i : Nat => (i : Int)) :=
        fun a b hab => Int.ofNat.inj hab
      exact List.Nodup.map hinj (List.nodup_range MAX_VOICES)
    · exact scan_all_busy ERR_NO_SLOTS _ MAX_VOICES 0
        (fun j _ hj => hrun.2 j (by omega))

/-- Witness of C1 on a pool of three voices with `_ERR_NO_SLOTS = -1`. -/
theorem C1_getSoundHandle_first_free_witness :
    ((-1 : Int) < 0 ∨ ((3 : Nat) : Int) ≤ -1) ∧
    (acquireAndPlay 3 (-1) 0 3 (Mixer.initial 3 : Mixer ℚ)).1 = [0, 1, 2] ∧
    (I_GetSoundHandle 3 (-1)
      (acquireAndPlay 3 (-1) 0 3 (Mixer.initial 3 : Mixer ℚ)).2).1 = -1 :=
  have h := (C1_getSoundHandle_first_free 3 (-1) (Or.inl (by decide))
    (Mixer.initial 3 : Mixer ℚ) 0).2.2.2 rfl (by decide)
  ⟨Or.inl (by decide), h.1, h.2.2⟩

/-- C2: for a handle `h < 0` or `h >= _MAX_VOICES`, each of `I_SetSoundData`,
`I_SetSoundInformation`, `I_SetAngle`, `I_SetVolume`, `I_PlaySound` and `I_StopSound`
returns the whole mixer state unchanged, whatever the other arguments (the functions are
`void`: there is no error value), and `I_CheckSoundPlaying` returns `0` in every state. -/
theorem C2_out_of_range_handle_is_noop (MAX_VOICES : Nat) (cosf sinf : α → α)
    (s : Mixer α) (handle : Int) (hrange : handle < 0 ∨ handle ≥ MAX_VOICES)
    (data : List Nat) (length sampleRate volume angle loop : Int) :
    I_SetSoundData MAX_VOICES s handle data length sampleRate = s ∧
    I_SetSoundInformation MAX_VOICES cosf sinf s handle volume angle = s ∧
    I_SetAngle MAX_VOICES cosf sinf s handle angle = s ∧
    I_SetVolume MAX_VOICES s handle volume = s ∧
    I_PlaySound MAX_VOICES s handle loop = s ∧
    I_StopSound MAX_VOICES s handle = s ∧
    I_CheckSoundPlaying MAX_VOICES s handle = 0 := by
  refine ⟨?_, ?_, ?_, ?_, ?_, ?_, ?_⟩
  · simp only [I_SetSoundData, if_pos hrange]
  · simp only [I_SetSoundInformation, if_pos hrange]
  · simp only [I_SetAngle, if_pos hrange]
  · simp only [I_SetVolume, if_pos hrange]
  · simp only [I_PlaySound, if_pos hrange]
  · simp only [I_StopSound, if_pos hrange]
  · simp only [I_CheckSoundPlaying, if_pos hrange]

/-- C3: for an in-range handle, `I_PlaySound(h, loop)` leaves slot `h` with `pos = 0`,
`frac = 0`, `playing = true` and `loop` equal to the flag (`loop != 0`), whatever the
slot held before; its `data`, `length`, `sampleRate`, `volume` and pan, every other slot,
the music voice and the other globals are unchanged. -/
theorem C3_playSound_restarts_slot (MAX_VOICES : Nat) (s : Mixer α) (handle loop : Int)
    (h0 : 0 ≤ handle) (h1 : handle < MAX_VOICES) (hlen : s.sources.length = MAX_VOICES) :
    (slot (I_PlaySound MAX_VOICES s handle loop).sources handle.toNat).pos = 0 ∧
    (slot (I_PlaySound MAX_VOICES s handle loop).sources handle.toNat).frac = 0 ∧
    (slot (I_PlaySound MAX_VOICES s handle loop).sources handle.toNat).playing = true ∧
    ((slot (I_PlaySound MAX_VOICES s handle loop).sources handle.toNat).loop = true
      ↔ loop ≠ 0) ∧
    (slot (I_PlaySound MAX_VOICES s handle loop).sources handle.toNat).data
      = (slot s.sources handle.toNat).data ∧
    (slot (I_PlaySound MAX_VOICES s handle loop).sources handle.toNat).length
      = (slot s.sources handle.toNat).length ∧
    (slot (I_PlaySound MAX_VOICES s handle loop).sources handle.toNat).sampleRate
      = (slot s.sources handle.toNat).sampleRate ∧
    (slot (I_PlaySound MAX_VOICES s handle loop).sources handle.toNat).volume
      = (slot s.sources handle.toNat).volume ∧
    (slot (I_PlaySound MAX_VOICES s handle loop).sources handle.toNat).angle_x
      = (slot s.sources handle.toNat).angle_x ∧
    (slot (I_PlaySound MAX_VOICES s handle loop).sources handle.toNat).angle_y
      = (slot s.sources handle.toNat).angle_y ∧
    (∀ i, i ≠ handle.toNat →
      slot (I_PlaySound MAX_VOICES s handle loop).sources i = slot s.sources i) ∧
    (I_PlaySound MAX_VOICES s handle loop).sources.length = s.sources.length ∧
    (I_PlaySound MAX_VOICES s handle loop).music = s.music ∧
    (I_PlaySound MAX_VOICES s handle loop).fragment_size = s.fragment_size ∧
    (I_PlaySound MAX_VOICES s handle loop).next_fragment = s.next_fragment ∧
    (I_PlaySound MAX_VOICES s handle loop).mixing_frequency = s.mixing_frequency := by
  have hsrc := I_PlaySound_sources MAX_VOICES s handle loop h0 h1
  have hlt : handle.toNat < s.sources.length := by
    rw [hlen]; exact handle_toNat_lt MAX_VOICES handle h0 h1
  have hrest : I_PlaySound MAX_VOICES s handle loop
      = { s with sources := (I_PlaySound MAX_VOICES s handle loop).sources } := by
    simp [I_PlaySound, handle_in_range MAX_VOICES handle h0 h1]
  have hslot := slot_updateSlot_same (fun src : SoundSource α =>
    { src with pos := 0, frac := 0, playing := true, loop := decide (loop ≠ 0) })
    s.sources handle.toNat hlt
  rw [← hsrc] at hslot
  refine ⟨?_, ?_, ?_, ?_, ?_, ?_, ?_, ?_, ?_, ?_, ?_, ?_, ?_, ?_, ?_, ?_⟩
  · rw [hslot]
  · rw [hslot]
  · rw [hslot]
  · rw [hslot]; simp
  · rw [hslot]
  · rw [hslot]
  · rw [hslot]
  · rw [hslot]
  · rw [hslot]
  · rw [hslot]
  · intro i hi
    rw [hsrc, slot_updateSlot_ne _ _ _ _ hi]
  · rw [hsrc, updateSlot_length]
  · rw [hrest]
  · rw [hrest]
  · rw [hrest]
  · rw [hrest]

/-- Witness of C3: slot 1 of a two-voice pool, already playing at cursor `(7, 300)`. -/
theorem C3_playSound_restarts_slot_witness :
    (slot (I_PlaySound 2
      ({ sources := [{}, { playing := true, pos := 7, frac := 300, length := 9 }] } : Mixer ℚ)
      1 1).sources 1).pos = 0 :=
  (C3_playSound_restarts_slot 2
    ({ sources := [{}, { playing := true, pos := 7, frac := 300, length := 9 }] } : Mixer ℚ)
    1 1 (by decide) (by decide) rfl).1

/-- Witness of C2: handle `5` on a pool of two voices. -/
theorem C2_out_of_range_handle_is_noop_witness :
    I_PlaySound 2 ({ sources := [{}, {}] } : Mixer ℚ) 5 1
      = ({ sources := [{}, {}] } : Mixer ℚ) :=
  (C2_out_of_range_handle_is_noop 2 (fun _ => 0) (fun _ => 0)
    ({ sources := [{}, {}] } : Mixer ℚ) 5 (Or.inr (by decide)) [] 0 0 0 0 1).2.2.2.2.1

/-- C4: `I_StopSound` is idempotent, is the identity when slot `h` is not playing, and
after it `I_CheckSoundPlaying(h)` is `0` and `I_CheckSoundDone(h)` is `1`. -/
theorem C4_stopSound_idempotent (MAX_VOICES : Nat) (s : Mixer α) (handle : Int) :
    I_StopSound MAX_VOICES (I_StopSound MAX_VOICES s handle) handle
      = I_StopSound MAX_VOICES s handle ∧
    ((slot s.sources handle.toNat).playing = false → I_StopSound MAX_VOICES s handle = s) ∧
    I_CheckSoundPlaying MAX_VOICES (I_StopSound MAX_VOICES s handle) handle = 0 ∧
    I_CheckSoundDone MAX_VOICES (I_StopSound MAX_VOICES s handle) handle = 1 := by
  have hplaying : I_CheckSoundPlaying MAX_VOICES (I_StopSound MAX_VOICES s handle) handle
      = 0 := by
    by_cases hr : handle < 0 ∨ handle ≥ MAX_VOICES
    · simp only [I_CheckSoundPlaying, if_pos hr]
    · simp only [I_CheckSoundPlaying, I_StopSound, if_neg hr, slot_stopped]
      simp
  refine ⟨?_, ?_, hplaying, ?_⟩
  · by_cases hr : handle < 0 ∨ handle ≥ MAX_VOICES
    · simp only [I_StopSound, if_pos hr]
    · simp only [I_StopSound, if_neg hr, updateSlot_twice]
  · intro hstopped
    by_cases hr : handle < 0 ∨ handle ≥ MAX_VOICES
    · simp only [I_StopSound, if_pos hr]
    · simp only [I_StopSound, if_neg hr]
      have hfix : (fun src : SoundSource α => { src with playing := false })
          (slot s.sources handle.toNat) = slot s.sources handle.toNat := by
        simp only [← hstopped]
      rw [updateSlot_of_fixed _ _ _ hfix]
  · simp only [I_CheckSoundDone, hplaying, if_true]

/-- C5 fails as stated: after `I_SetSoundInformation(h, 65536, 0)` (real `cos` and `sin`)
the pan is `x = 0.05`, not `cos 0 = 1`, and the gains the mixer applies are `0.525` and
`0.475`, not `(1 + cos 0) / 2 = 1` and `(1 - cos 0) / 2 = 0`. -/
theorem C5_pan_is_not_cos_counterexample :
    (slot (I_SetSoundInformation 1 Real.cos Real.sin
        ({ sources := [{}] } : Mixer ℝ) 0 65536 0).sources 0).angle_x ≠ Real.cos 0 ∧
    mix_fragment.volume_left (slot (I_SetSoundInformation 1 Real.cos Real.sin
        ({ sources := [{}] } : Mixer ℝ) 0 65536 0).sources 0)
      ≠ (65536 / 65536) * (1 + Real.cos 0) / 2 ∧
    mix_fragment.volume_right (slot (I_SetSoundInformation 1 Real.cos Real.sin
        ({ sources := [{}] } : Mixer ℝ) 0 65536 0).sources 0)
      ≠ (65536 / 65536) * (1 - Real.cos 0) / 2 := by
  refine ⟨?_, ?_, ?_⟩
  · simp [I_SetSoundInformation, updateSlot, slot]
    norm_num
  · simp [I_SetSoundInformation, updateSlot, slot, mix_fragment.volume_left]
    norm_num
  · simp [I_SetSoundInformation, updateSlot, slot, mix_fragment.volume_right]
    norm_num

/-- C5 as amended: for an in-range handle, after `I_SetSoundInformation(h, v, a)` the pan
is `x = 0.05 * cos(theta)`, `y = 0.05 * sin(theta)` with
`theta = (a / 65536) * (3.1415927 * 2)`, the volume is `v / 65536`, and the gains the
mixer applies are `(v / 65536) * (1 + 0.05 * cos(theta)) / 2` on the left and
`(v / 65536) * (1 - 0.05 * cos(theta)) / 2` on the right (exact arithmetic, for any
interpretation `cosf`, `sinf` of the two library functions). -/
theorem C5_setSoundInformation_pan_and_gain (MAX_VOICES : Nat) (cosf sinf : α → α)
    (s : Mixer α) (handle volume angle : Int)
    (h0 : 0 ≤ handle) (h1 : handle < MAX_VOICES) (hlen : s.sources.length = MAX_VOICES) :
    (slot (I_SetSoundInformation MAX_VOICES cosf sinf s handle volume angle).sources
        handle.toNat).angle_x
      = 0.05 * cosf (((angle : α) / 65536) * (3.1415927 * 2)) ∧
    (slot (I_SetSoundInformation MAX_VOICES cosf sinf s handle volume angle).sources
        handle.toNat).angle_y
      = 0.05 * sinf (((angle : α) / 65536) * (3.1415927 * 2)) ∧
    (slot (I_SetSoundInformation MAX_VOICES cosf sinf s handle volume angle).sources
        handle.toNat).volume
      = (volume : α) / 65536 ∧
    mix_fragment.volume_left
        (slot (I_SetSoundInformation MAX_VOICES cosf sinf s handle volume angle).sources
          handle.toNat)
      = ((volume : α) / 65536)
          * (1 + 0.05 * cosf (((angle : α) / 65536) * (3.1415927 * 2))) / 2 ∧
    mix_fragment.volume_right
        (slot (I_SetSoundInformation MAX_VOICES cosf sinf s handle volume angle).sources
          handle.toNat)
      = ((volume : α) / 65536)
          * (1 - 0.05 * cosf (((angle : α) / 65536) * (3.1415927 * 2))) / 2 := by
  have hlt : handle.toNat < s.sources.length := by
    rw [hlen]; exact handle_toNat_lt MAX_VOICES handle h0 h1
  have hsrc : (I_SetSoundInformation MAX_VOICES cosf sinf s handle volume angle).sources
      = updateSlot (fun src =>
          { src with angle_x := cosf (((angle : α) / 65536) * (3.1415927 * 2)) * 0.05,
                     angle_y := sinf (((angle : α) / 65536) * (3.1415927 * 2)) * 0.05,
                     volume := (volume : α) / 65536 })
          s.sources handle.toNat := by
    simp [I_SetSoundInformation, handle_in_range MAX_VOICES handle h0 h1]
  rw [hsrc, slot_updateSlot_same _ _ _ hlt]
  refine ⟨?_, ?_, rfl, ?_, ?_⟩
  · simp only [mul_comm]
  · simp only [mul_comm]
  · simp only [mix_fragment.volume_left]
    ring
  · simp only [mix_fragment.volume_right]
    ring

/-- Witness of the amended C5 over the reals at the spec scenario `v = 65536`, `a = 0`:
the left gain is `21 / 40`. -/
theorem C5_setSoundInformation_pan_and_gain_witness :
    mix_fragment.volume_left (slot (I_SetSoundInformation 1 Real.cos Real.sin
      ({ sources := [{}] } : Mixer ℝ) 0 65536 0).sources 0) = 21 / 40 := by
  have h := (C5_setSoundInformation_pan_and_gain 1 Real.cos Real.sin
    ({ sources := [{}] } : Mixer ℝ) 0 65536 0 (by decide) (by decide) rfl).2.2.2.1
  simp only [Int.toNat_zero] at h
  rw [h]
  norm_num

/-- C6 fails as stated for buffers within `65534` bytes of `INT_MAX`: with
`length = 2147483647`, `pos = 2147483646`, `frac = 0` and a step of two samples per frame
(`sampleRate = 96000` at a mixing frequency of `48000`) the sum `pos += frac >> 16`
leaves the range of `int`, the test `pos >= length` is false for the wrapped value, and
the second frame of the fragment reads the source at index `-2147483648`. -/
theorem C6_read_outside_buffer_counterexample :
    mix_fragment.soundReads 48000
        ({ playing := true, pos := 2147483646, frac := 0, length := 2147483647,
           sampleRate := 96000, loop := true,
           data := List.replicate 2147483647 128 } : SoundSource ℚ) [(0, 0), (0, 0)]
      = [2147483646, -2147483648] ∧
    ¬ ∀ i ∈ mix_fragment.soundReads 48000
        ({ playing := true, pos := 2147483646, frac := 0, length := 2147483647,
           sampleRate := 96000, loop := true,
           data := List.replicate 2147483647 128 } : SoundSource ℚ) [(0, 0), (0, 0)],
      0 ≤ i ∧ i < 2147483647 := by
  have hreads : mix_fragment.soundReads 48000
        ({ playing := true, pos := 2147483646, frac := 0, length := 2147483647,
           sampleRate := 96000, loop := true,
           data := List.replicate 2147483647 128 } : SoundSource ℚ) [(0, 0), (0, 0)]
      = [2147483646, -2147483648] := by decide
  refine ⟨hreads, ?_⟩
  rw [hreads]
  intro h
  exact absurd (h (-2147483648) (by simp)).1 (by decide)

/-- C6 as amended: for every fragment buffer (any number of frames) and every playing
sound voice with `0 < length <= 2^31 - 65535` and `0 <= pos < length` at the start of
its pass (any `frac`, any `sampleRate`, looping or not), every index at which the pass
reads the source buffer lies in `[0, length)`, and a voice that is still playing after
the pass again has `0 <= pos < length`. -/
theorem C6_reads_within_buffer (mixing_frequency : Int) (src : SoundSource α)
    (output : List (α × α)) (hplaying : src.playing = true)
    (hlen : 0 < src.length) (hmax : src.length ≤ 2147418113)
    (hpos0 : 0 ≤ src.pos) (hpos1 : src.pos < src.length) :
    (∀ i ∈ mix_fragment.soundReads mixing_frequency src output, 0 ≤ i ∧ i < src.length) ∧
    ((mix_fragment.sound mixing_frequency src output).1.playing = true →
      0 ≤ (mix_fragment.sound mixing_frequency src output).1.pos ∧
      (mix_fragment.sound mixing_frequency src output).1.pos
        < (mix_fragment.sound mixing_frequency src output).1.length) := by
  have h := soundLoop_reads_in_bounds (playbackSpeed src.sampleRate mixing_frequency)
    src.length src.data (mix_fragment.volume_left src) (mix_fragment.volume_right src)
    src.loop hlen hmax output src.pos src.frac hpos0 hpos1
  simp only [mix_fragment.soundReads, mix_fragment.sound, hplaying, if_true,
    mix_fragment.soundRun]
  exact h

/-- Witness of the amended C6: a looping four-byte voice played at twice the mixing
frequency over a fragment of five frames reads indices in `[0, 4)` only. -/
theorem C6_reads_within_buffer_witness :
    (mix_fragment.soundReads 48000
        ({ playing := true, pos := 1, frac := 0, length := 4, sampleRate := 96000,
           loop := true, data := [127, 127, 254, 0] } : SoundSource ℚ)
        [(0, 0), (0, 0), (0, 0), (0, 0), (0, 0)]).all
      (fun i => decide (0 ≤ i ∧ i < 4)) = true :=
  List.all_eq_true.mpr (fun i hi => decide_eq_true
    ((C6_reads_within_buffer 48000
      ({ playing := true, pos := 1, frac := 0, length := 4, sampleRate := 96000,
         loop := true, data := [127, 127, 254, 0] } : SoundSource ℚ)
      [(0, 0), (0, 0), (0, 0), (0, 0), (0, 0)] rfl (by decide) (by decide) (by decide)
      (by decide)).1 i hi))

/-- C9 fails as stated for a negative `sampleRate`: the operand is converted to
`uint64_t` before the multiplication, so for `sampleRate = -1` at a mixing frequency of
`48000` the step is `2084490792`, not `floor(-65536 / 48000)` as an unsigned 32-bit value
(`4294967294`); and a cursor at `pos = INT_MAX` does not advance by one. -/
theorem C9_negative_rate_counterexample :
    ((playbackSpeed (-1) 48000 : Nat) : Int) ≠ ((-1 : Int) * 65536 / 48000) % 4294967296 ∧
    playbackSpeed (-1) 48000 = 2084490792 ∧
    (advance (playbackSpeed 48000 48000) 2147483647 0).1 ≠ 2147483647 + 1 := by
  decide

/-- C9 as amended: for `0 <= sampleRate` and `0 < mixing_frequency` (both in the range of
`int`) the playback step is `floor(sampleRate * 65536 / mixing_frequency)` modulo `2^32`;
when `sampleRate == mixing_frequency` it is exactly `65536`, and then every cursor with
`frac < 65536` and `pos < INT_MAX` is advanced to `(pos + 1, frac)`, so that a voice with
`0 <= pos < length` reads, at its `j`-th frame of the fragment, the source index
`(pos + j) mod length`: consecutive samples, none skipped or repeated. -/
theorem C9_playback_step (sampleRate mixing_frequency : Int)
    (hs0 : 0 ≤ sampleRate) (hs1 : sampleRate < 2147483648)
    (hm0 : 0 < mixing_frequency) (hm1 : mixing_frequency < 2147483648) :
    ((playbackSpeed sampleRate mixing_frequency : Nat) : Int)
      = (sampleRate * 65536 / mixing_frequency) % 4294967296 ∧
    (sampleRate = mixing_frequency →
      playbackSpeed sampleRate mixing_frequency = 65536 ∧
      (∀ (pos : Int) (frac : Nat), frac < 65536 → -2147483648 ≤ pos →
        pos + 1 < 2147483648 →
        advance (playbackSpeed sampleRate mixing_frequency) pos frac = (pos + 1, frac)) ∧
      (∀ (src : SoundSource α) (output : List (α × α)), src.playing = true →
        src.sampleRate = sampleRate → 0 ≤ src.pos → src.pos < src.length →
        src.length < 2147483648 → src.frac < 65536 →
        ∀ (j : Nat) (i : Int),
          (mix_fragment.soundReads mixing_frequency src output)[j]? = some i →
          i = (src.pos + j) % src.length)) := by
  refine ⟨playbackSpeed_nonneg_rate sampleRate mixing_frequency hs0 hs1 hm0 hm1, ?_⟩
  intro hsame
  subst hsame
  have hspeed := playbackSpeed_same_rate sampleRate hm0 hs1
  refine ⟨hspeed, ?_, ?_⟩
  · intro pos frac hfrac h0 h1
    rw [hspeed]
    exact advance_unit pos frac hfrac h0 h1
  · intro src output hplaying hrate h0 h1 hmax hfrac j i hj
    simp only [mix_fragment.soundReads, hplaying, if_true, mix_fragment.soundRun, hrate,
      hspeed] at hj
    exact soundLoop_unit_reads src.length src.data _ _ src.loop hmax output src.pos
      src.frac h0 h1 hfrac j i hj

/-- Witness of the amended C9: an 11025 Hz sound mixed at 48000 Hz has step `15052`. -/
theorem C9_playback_step_witness :
    ((playbackSpeed 11025 48000 : Nat) : Int) = 15052 ∧ playbackSpeed 48000 48000 = 65536 :=
  ⟨(@C9_playback_step ℚ _ 11025 48000 (by decide) (by decide) (by decide)
      (by decide)).1.trans (by decide),
   ((@C9_playback_step ℚ _ 48000 48000 (by decide) (by decide) (by decide)
      (by decide)).2 rfl).1⟩

/-- C10: the fragment rendered by `mix_fragment` has `fragment_size` frames and is, frame
by frame and channel by channel, the sum of the fragments rendered from the same state
with each playing sound voice alone and with the music voice alone; it does not depend on
what `next_fragment` held before, and it is all zeros when nothing is playing.  The sum
is neither normalised nor clamped: two voices that each put `21/40 > 1/2` on the left
channel of a frame give `21/20 > 1` there. -/
theorem C10_mixing_is_additive (s : Mixer α) :
    (mix_fragment s).next_fragment.length = s.fragment_size ∧
    (∀ j, frameAt (mix_fragment s).next_fragment j = soloSum s j) ∧
    (∀ previous : List (α × α),
      (mix_fragment { s with next_fragment := previous }).next_fragment
        = (mix_fragment s).next_fragment) ∧
    ((∀ src ∈ s.sources, src.playing = false) → s.music.playing = false →
      (mix_fragment s).next_fragment = List.replicate s.fragment_size (0, 0)) ∧
    ((mix_fragment (soloSound twoLoudVoices 0)).next_fragment = [(21 / 40, 19 / 40)] ∧
      (mix_fragment (soloSound twoLoudVoices 1)).next_fragment = [(21 / 40, 19 / 40)] ∧
      (mix_fragment twoLoudVoices).next_fragment = [(21 / 20, 19 / 20)] ∧
      (1 : ℚ) / 2 < 21 / 40 ∧ (1 : ℚ) < 21 / 20) := by
  refine ⟨(mix_fragment_frames s).2.2.1, mix_fragment_eq_soloSum s, fun _ => rfl,
    mix_fragment_silent s, ?_, ?_, ?_, by norm_num, by norm_num⟩
  · simp [mix_fragment, soloSound, muteOthers, muted, twoLoudVoices, mix_fragment.sounds,
      mix_fragment.sound, mix_fragment.soundRun, mix_fragment.soundLoop, mix_fragment.music,
      mix_fragment.volume_left, mix_fragment.volume_right, decodeSample, readByte, advance,
      playbackSpeed, toUInt64, toUInt32, toInt32]
    norm_num
  · simp [mix_fragment, soloSound, muteOthers, muted, twoLoudVoices, mix_fragment.sounds,
      mix_fragment.sound, mix_fragment.soundRun, mix_fragment.soundLoop, mix_fragment.music,
      mix_fragment.volume_left, mix_fragment.volume_right, decodeSample, readByte, advance,
      playbackSpeed, toUInt64, toUInt32, toInt32]
    norm_num
  · simp [mix_fragment, twoLoudVoices, mix_fragment.sounds,
      mix_fragment.sound, mix_fragment.soundRun, mix_fragment.soundLoop, mix_fragment.music,
      mix_fragment.volume_left, mix_fragment.volume_right, decodeSample, readByte, advance,
      playbackSpeed, toUInt64, toUInt32, toInt32]
    norm_num

/-- C8: a single non-looping sound voice of length `L > 0`, started at cursor `(0, 0)`
with `sampleRate` equal to the mixing frequency, no other voice and no music playing, and
a fragment of more than `L` frames: frame `i < L` of the fragment is `decode(data[i])`
times the left and right gain of the voice, with
`decode(b) = clamp((b - 127) / 127, -1, 1)`; every frame from `L` on is `(0, 0)`; and the
voice is done afterwards. -/
theorem C8_single_voice_fragment (MAX_VOICES : Nat) (s : Mixer α) (h : Nat)
    (hh : h < s.sources.length) (hplaying : (slot s.sources h).playing = true)
    (hloop : (slot s.sources h).loop = false)
    (hpos : (slot s.sources h).pos = 0) (hfrac : (slot s.sources h).frac = 0)
    (hrate : (slot s.sources h).sampleRate = s.mixing_frequency)
    (hmf0 : 0 < s.mixing_frequency) (hmf1 : s.mixing_frequency < 2147483648)
    (hlen0 : 0 < (slot s.sources h).length) (hlen1 : (slot s.sources h).length < 2147483648)
    (hothers : ∀ i, i ≠ h → (slot s.sources i).playing = false)
    (hmusic : s.music.playing = false)
    (hF : (slot s.sources h).length < s.fragment_size) :
    (∀ i : Nat, (i : Int) < (slot s.sources h).length →
      frameAt (mix_fragment s).next_fragment i
        = (decodeSample (readByte (slot s.sources h).data i)
              * mix_fragment.volume_left (slot s.sources h),
           decodeSample (readByte (slot s.sources h).data i)
              * mix_fragment.volume_right (slot s.sources h))) ∧
    (∀ i : Nat, (slot s.sources h).length ≤ i →
      frameAt (mix_fragment s).next_fragment i = (0, 0)) ∧
    (∀ b : Nat, (decodeSample b : α) = min (max (((b : α) - 127) / 127) (-1)) 1) ∧
    (slot (mix_fragment s).sources h).playing = false ∧
    I_CheckSoundPlaying MAX_VOICES (mix_fragment s) (h : Int) = 0 ∧
    I_CheckSoundDone MAX_VOICES (mix_fragment s) (h : Int) = 1 := by
  obtain ⟨n, hn⟩ := Int.eq_ofNat_of_zero_le (le_of_lt hlen0)
  have hnpos : 0 < n := by
    rw [hn] at hlen0; exact_mod_cast hlen0
  have hnmax : n < 2147483648 := by
    rw [hn] at hlen1; exact_mod_cast hlen1
  have hnF : n < s.fragment_size := by
    rw [hn] at hF; exact_mod_cast hF
  have hcursor : ∀ j, j ≤ n →
      slotCursor s.mixing_frequency (slot s.sources h) j = ((j : Int), 0) := by
    intro j hj
    simp only [slotCursor, hrate, playbackSpeed_same_rate s.mixing_frequency hmf0 hmf1,
      hpos, hfrac]
    rw [cursorAfter_unit j 0 0 (by decide) (by decide) (by omega)]
    simp
  have hstop := mix_fragment_stops_voice s h (n - 1) hh hplaying hloop (by omega)
    (fun j hj => by
      rw [hcursor (j + 1) (by omega), hn]
      show ((j + 1 : Nat) : Int) < (n : Int)
      exact_mod_cast (by omega : j + 1 < n))
    (by
      rw [hcursor (n - 1 + 1) (by omega), hn]
      show (n : Int) ≤ ((n - 1 + 1 : Nat) : Int)
      exact_mod_cast (by omega : n ≤ n - 1 + 1))
  have hsilent : (mix_fragment (withoutSound s h)).next_fragment
      = List.replicate s.fragment_size (0, 0) := by
    apply mix_fragment_silent (withoutSound s h) _ hmusic
    apply all_stopped_of_slots
    intro i
    simp only [withoutSound]
    by_cases hi : i = h
    · subst hi
      rw [slot_updateSlot_same _ _ _ hh]
      rfl
    · rw [slot_updateSlot_ne _ _ _ _ hi]
      exact hothers i hi
  have hstopped : (slot (mix_fragment s).sources h).playing = false := by rw [hstop.1]
  have hdone := checkSoundDone_of_stopped MAX_VOICES (mix_fragment s) h hstopped
  refine ⟨?_, ?_, decodeSample_eq, hstopped, ?_, hdone⟩
  · intro i hi
    have hin : i < n := by
      rw [hn] at hi; exact_mod_cast hi
    rw [hstop.2.1 i (by omega), hsilent, frameAt_zeros, zero_add,
      hcursor i (by omega)]
    rfl
  · intro i hi
    have hin : n ≤ i := by
      rw [hn] at hi; exact_mod_cast hi
    rw [hstop.2.2 i (by omega), hsilent, frameAt_zeros]
    rfl
  · by_cases hr : (h : Int) < 0 ∨ (h : Int) ≥ MAX_VOICES
    · simp only [I_CheckSoundPlaying, if_pos hr]
    · simp only [I_CheckSoundPlaying, if_neg hr, Int.toNat_ofNat, hstopped]
      simp

/-- Witness of C8, the scenario of the specification over the reals (`data =
[127,127,254,0]`, `volume = 65536`, `turnAngle = 0`, five frames): frames 1 and 2 are
silent, frame 3 is positive and frame 4 negative on both channels, frame 5 is zero, and
`I_CheckSoundDone(0)` is `1`. -/
theorem C8_single_voice_fragment_witness :
    frameAt (mix_fragment (specScenario Real.cos Real.sin)).next_fragment 0 = (0, 0) ∧
    frameAt (mix_fragment (specScenario Real.cos Real.sin)).next_fragment 1 = (0, 0) ∧
    frameAt (mix_fragment (specScenario Real.cos Real.sin)).next_fragment 2
      = (21 / 40, 19 / 40) ∧
    frameAt (mix_fragment (specScenario Real.cos Real.sin)).next_fragment 3
      = (-(21 / 40), -(19 / 40)) ∧
    frameAt (mix_fragment (specScenario Real.cos Real.sin)).next_fragment 4 = (0, 0) ∧
    I_CheckSoundDone 1 (mix_fragment (specScenario Real.cos Real.sin)) 0 = 1 := by
  have hslot : slot (specScenario Real.cos Real.sin).sources 0
      = { playing := true, data := [127, 127, 254, 0], length := 4, sampleRate := 48000,
          angle_x := 1 / 20, volume := 1 } := by
    simp [specScenario, Mixer.initial, I_PlaySound, I_SetSoundInformation, I_SetSoundData,
      updateSlot, slot]
    norm_num
  have h := C8_single_voice_fragment 1 (specScenario Real.cos Real.sin) 0
    (by simp [specScenario, Mixer.initial, I_PlaySound, I_SetSoundInformation,
          I_SetSoundData, updateSlot])
    (by rw [hslot]) (by rw [hslot]) (by rw [hslot]) (by rw [hslot])
    (by rw [hslot]; rfl) (by decide) (by decide)
    (by rw [hslot]; decide) (by rw [hslot]; decide)
    (by
      intro i hi
      cases i with
      | zero => exact absurd rfl hi
      | succ m => rfl)
    rfl
    (by rw [hslot]; decide)
  rw [hslot] at h
  have h0 := h.1 0 (by decide)
  have h1 := h.1 1 (by decide)
  have h2 := h.1 2 (by decide)
  have h3 := h.1 3 (by decide)
  have h4 := h.2.1 4 (by decide)
  refine ⟨?_, ?_, ?_, ?_, h4, h.2.2.2.2.2⟩
  · rw [h0]
    simp [decodeSample, readByte]
  · rw [h1]
    simp [decodeSample, readByte]
  · rw [h2]
    simp [decodeSample, readByte, mix_fragment.volume_left, mix_fragment.volume_right]
    norm_num
  · rw [h3]
    simp [decodeSample, readByte, mix_fragment.volume_left, mix_fragment.volume_right]
    norm_num

/-- C12 fails as stated for a song of more than `2^30` stereo frames: with the cursor at
`pos = 2^30` inside a buffer of `2^31 + 2` floats, `pos << 1` leaves the range of `int`
and the frame is read at the indices `-2147483648` and `-2147483647`, not at `2 * pos`
and `2 * pos + 1`. -/
theorem C12_music_index_wraps_counterexample :
    mix_fragment.musicReads 48000
        ({ playing := true, pos := 1073741824, sample_rate := 48000, loop := true,
           song_data := List.replicate 2147483650 1 } : MusicSource ℚ) [(0, 0)]
      = [1073741824, -2147483648, -2147483647] ∧
    (-2147483648 : Int) ≠ 2 * 1073741824 := by
  have key : ∀ data : List ℚ, data.length = 2147483650 →
      mix_fragment.musicReads 48000
        ({ playing := true, pos := 1073741824, sample_rate := 48000, loop := true,
           song_data := data } : MusicSource ℚ) [(0, 0)]
      = [1073741824, -2147483648, -2147483647] := by
    intro data hdata
    have hlen : toInt32 (2147483650 / 2) = 1073741825 := by decide
    have hadv : advance (playbackSpeed 48000 48000) 1073741824 0 = (1073741825, 0) := by
      decide
    have hshift : toInt32 (toUInt32 1073741824 * 2) = -2147483648 := by decide
    simp only [mix_fragment.musicReads, if_true, mix_fragment.musicRun, hdata, hlen,
      mix_fragment.musicLoop, hadv, hshift]
    simp
  exact ⟨key _ (List.length_replicate _ _), by decide⟩

/-- C12 as amended: let the music voice be playing on a buffer of at least one and at
most `2^30` stereo frames, with `0 <= pos < length`, `length = song_data.size() / 2`.
Then `mix_fragment` leaves the music cursor and `playing` flag as the step rule of the
sound voices leaves them (`musicCursorRun`); every position at which a frame is rendered
lies in `[0, length)`; the frame rendered at position `p` is the frame of the fragment
rendered without the music plus exactly `(data[2 * p], data[2 * p + 1])`, and the frames
after the music has stopped are those rendered without it; the loop with the local
`sample` written out computes the same as the loop without it, whatever the `float` to
`int` conversion; a sound voice follows the same step rule with its own step, `length`
and `loop`; `I_PlayHQSong` replaces the music voice by the given rate, buffer and flag
with cursor `(0, 0)` and `playing = true`; and `I_StopHQSong` leaves an empty buffer,
cursor `(0, 0)` and `playing = false`. -/
theorem C12_music_voice (s : Mixer α) (hplaying : s.music.playing = true)
    (hsize0 : 2 ≤ s.music.song_data.length)
    (hsize1 : s.music.song_data.length / 2 ≤ 1073741824)
    (hpos0 : 0 ≤ s.music.pos)
    (hpos1 : s.music.pos < ((s.music.song_data.length / 2 : Nat) : Int)) :
    (mix_fragment s).music
      = { s.music with pos := (musicCursorRun s).pos, frac := (musicCursorRun s).frac,
                       playing := (musicCursorRun s).playing } ∧
    (∀ p ∈ (musicCursorRun s).positions,
      0 ≤ p ∧ p < ((s.music.song_data.length / 2 : Nat) : Int)) ∧
    (∀ (j : Nat) (p : Int), (musicCursorRun s).positions[j]? = some p →
      frameAt (mix_fragment s).next_fragment j
        = frameAt (mix_fragment (withoutMusic s)).next_fragment j
          + (readFloat s.music.song_data (2 * p), readFloat s.music.song_data (2 * p + 1))) ∧
    (∀ j, (musicCursorRun s).positions.length ≤ j →
      frameAt (mix_fragment s).next_fragment j
        = frameAt (mix_fragment (withoutMusic s)).next_fragment j) ∧
    (∀ (toInt : α → Int) (output : List (α × α)) (pos : Int) (frac : Nat),
      mix_fragment.musicLoopWithSample toInt
          (playbackSpeed s.music.sample_rate s.mixing_frequency)
          (toInt32 (s.music.song_data.length / 2)) s.music.song_data s.music.loop
          output pos frac
        = mix_fragment.musicLoop (playbackSpeed s.music.sample_rate s.mixing_frequency)
          (toInt32 (s.music.song_data.length / 2)) s.music.song_data s.music.loop
          output pos frac) ∧
    (∀ (src : SoundSource α) (output : List (α × α)), src.playing = true →
      (mix_fragment.sound s.mixing_frequency src output).1
        = { src with
            pos := (stepRule (playbackSpeed src.sampleRate s.mixing_frequency) src.length
              src.loop output.length src.pos src.frac).pos,
            frac := (stepRule (playbackSpeed src.sampleRate s.mixing_frequency) src.length
              src.loop output.length src.pos src.frac).frac,
            playing := (stepRule (playbackSpeed src.sampleRate s.mixing_frequency)
              src.length src.loop output.length src.pos src.frac).playing } ∧
      mix_fragment.soundReads s.mixing_frequency src output
        = (stepRule (playbackSpeed src.sampleRate s.mixing_frequency) src.length
            src.loop output.length src.pos src.frac).positions) ∧
    (∀ (sample_rate : Int) (song_data : List α) (loop : Bool),
      (I_PlayHQSong s sample_rate song_data loop).music
        = { sample_rate := sample_rate, song_data := song_data, loop := loop,
            pos := 0, frac := 0, playing := true } ∧
      (I_PlayHQSong s sample_rate song_data loop).sources = s.sources) ∧
    (I_StopHQSong s).music = {} ∧
    (I_StopHQSong s).sources = s.sources := by
  have hlen : toInt32 (s.music.song_data.length / 2)
      = ((s.music.song_data.length / 2 : Nat) : Int) := by
    unfold toInt32
    split <;> omega
  have hrule := musicLoop_follows_rule
    (playbackSpeed s.music.sample_rate s.mixing_frequency)
    (toInt32 (s.music.song_data.length / 2)) s.music.song_data s.music.loop
    (List.replicate s.fragment_size ((0 : α), (0 : α))) s.music.pos s.music.frac
  simp only [List.length_replicate] at hrule
  have hbounds : ∀ p ∈ (musicCursorRun s).positions,
      0 ≤ p ∧ p < ((s.music.song_data.length / 2 : Nat) : Int) := by
    have := stepRule_positions_in_bounds
      (playbackSpeed s.music.sample_rate s.mixing_frequency)
      (toInt32 (s.music.song_data.length / 2)) s.music.loop
      (by rw [hlen]; omega) (by rw [hlen]; omega) s.fragment_size s.music.pos s.music.frac
      hpos0 (by rw [hlen]; exact hpos1)
    rw [hlen] at this
    simp only [musicCursorRun, hlen]
    exact this
  have hpass : mix_fragment.music s.mixing_frequency s.music
        (List.replicate s.fragment_size ((0 : α), (0 : α)))
      = ({ s.music with pos := (musicCursorRun s).pos, frac := (musicCursorRun s).frac,
                        playing := (musicCursorRun s).playing },
         (mix_fragment.musicLoop (playbackSpeed s.music.sample_rate s.mixing_frequency)
            (toInt32 (s.music.song_data.length / 2)) s.music.song_data s.music.loop
            (List.replicate s.fragment_size ((0 : α), (0 : α))) s.music.pos
            s.music.frac).output) := by
    simp only [mix_fragment.music, hplaying, if_true, mix_fragment.musicRun, musicCursorRun,
      hrule.1, hrule.2.1, hrule.2.2.1]
  refine ⟨?_, hbounds, ?_, ?_, ?_, ?_, ?_, rfl, rfl⟩
  · rw [(mix_fragment_frames s).2.1, hpass]
  · intro j p hj
    have hp := hbounds p (List.getElem?_mem hj)
    rw [mix_fragment_split_music s j, hpass, hrule.2.2.2.1 j p hj, frameAt_zeros, zero_add,
      shift_left_one p hp.1 (by omega)]
  · intro j hj
    rw [mix_fragment_split_music s j, hpass, hrule.2.2.2.2 j hj, frameAt_zeros, add_zero]
  · intro toInt output pos frac
    exact musicLoopWithSample_eq toInt _ _ _ _ output pos frac
  · intro src output hsrc
    have h := soundLoop_follows_rule (playbackSpeed src.sampleRate s.mixing_frequency)
      src.length src.data (mix_fragment.volume_left src) (mix_fragment.volume_right src)
      src.loop output src.pos src.frac
    simp only [mix_fragment.sound, mix_fragment.soundReads, hsrc, if_true,
      mix_fragment.soundRun, h.1, h.2.1, h.2.2.1, h.2.2.2]
    exact ⟨trivial, trivial⟩
  · intro sample_rate song_data loop
    exact ⟨rfl, rfl⟩

/-- Witness of the amended C12 on `shortSong`: the second frame of the fragment is the
second stereo frame of the song, and the song has stopped after the fragment. -/
theorem C12_music_voice_witness :
    frameAt (mix_fragment shortSong).next_fragment 1
      = frameAt (mix_fragment (withoutMusic shortSong)).next_fragment 1
        + (readFloat shortSong.music.song_data (2 * 1),
           readFloat shortSong.music.song_data (2 * 1 + 1)) ∧
    (mix_fragment shortSong).music.playing = false :=
  have h := C12_music_voice shortSong rfl (by decide) (by decide) (by decide) (by decide)
  ⟨h.2.2.1 1 1 (by decide), by rw [h.1]; decide⟩

/-- C14: rendering a fragment of `F1` frames and then, with no call in between, a fragment
of `F2` frames gives two fragments whose concatenation is the fragment of `F1 + F2`
frames rendered from the same state, and both ways end with the same sound slots and the
same music voice (in particular the same `pos`, `frac` and `playing`).  This holds for
every state and every `F1`, `F2`. -/
theorem C14_fragment_size_independence (s : Mixer α) (F1 F2 : Nat) :
    (renderFrames F1 s).next_fragment ++ (renderFrames F2 (renderFrames F1 s)).next_fragment
      = (renderFrames (F1 + F2) s).next_fragment ∧
    (renderFrames F2 (renderFrames F1 s)).sources = (renderFrames (F1 + F2) s).sources ∧
    (renderFrames F2 (renderFrames F1 s)).music = (renderFrames (F1 + F2) s).music :=
  renderFrames_split s F1 F2

end Claims

end Win32Audio
